import Mathlib

/-!
Verification of the RAG orchestration core (hybrid retrieval, chunking,
reranking, sandboxed tools, workflow state machine) of the
`RAG-with-FastAPI` repository.

Python code is shallowly embedded: dictionaries become structures with
optional fields, floats become exact rationals (`ℚ`), exceptions become
`Except`, and the external services (vector store, cross-encoder, LLM,
wall clock, and the `rank_bm25` scoring library) become explicit oracle
parameters.  String data is modelled as Lean `String` / `List Char`.
-/

/-! ## Shared string utilities (Python `str` operations used by the core) -/

/-- Python whitespace characters stripped by `str.strip()` (ASCII range). -/
def isPySpace (c : Char) : Bool :=
  c = Char.ofNat 32 || c = Char.ofNat 9 || c = Char.ofNat 10 ||
  c = Char.ofNat 13 || c = Char.ofNat 11 || c = Char.ofNat 12

/-- Python `str.strip()` on a character list. -/
def pyStrip (l : List Char) : List Char :=
  ((l.dropWhile isPySpace).reverse.dropWhile isPySpace).reverse

/-- Python slice `text[a:b]` (indices clamped to the text, as in Python). -/
def pySlice (t : List Char) (a b : ℕ) : List Char :=
  (t.drop a).take (b - a)

/-- Python `str.lower()` (ASCII case folding; queries in this core are ASCII). -/
def pyLower (s : String) : String :=
  ⟨s.toList.map Char.toLower⟩

/-- Boolean substring test, Python's `needle in hay` for strings. -/
def containsSub (needle hay : List Char) : Bool :=
  (List.range (hay.length + 1)).any fun i => (hay.drop i).take needle.length = needle

/-- Python `needle in hay` on `String`s. -/
def pyIn (needle hay : String) : Bool :=
  containsSub needle.toList hay.toList

/-- Python truthiness of an optional string (`None` and `""` are falsy). -/
def truthyStr : Option String → Bool
  | some s => s ≠ ""
  | none => false

/-- Single-quote character, kept out of string literals. -/
def sqc : String := String.singleton (Char.ofNat 39)

/-- Worker for `digitRuns` (fuel-driven structural recursion so the
kernel can evaluate it; every step consumes at least one character, so a
budget of the input length suffices). -/
def digitRunsF : ℕ → List Char → List String
  | 0, _ => []
  | _, [] => []
  | f + 1, c :: rest =>
    if c.isDigit then
      ⟨c :: rest.takeWhile Char.isDigit⟩ :: digitRunsF f (rest.dropWhile Char.isDigit)
    else
      digitRunsF f rest

/-- Maximal runs of ASCII digits in a character list, Python `re.findall(r"\d+", s)`. -/
def digitRuns (l : List Char) : List String := digitRunsF l.length l

/-- Numeric value of a digit string (Python `int` on a digit run). -/
def digitsVal (l : List Char) : ℕ :=
  l.foldl (fun a c => 10 * a + (c.toNat - 48)) 0

/-! ## SafeEvaluator (`app/rag/llm/tools.py`)

`ToolRegistry._safe_eval` parses an arithmetic expression with `ast.parse`
and evaluates only numeric literals, binary `+ - * / % ** //`-shaped nodes
(`//` parses but its operator is missing from the operator table, raising
`KeyError`) and unary `+ -`.  We embed the fragment of Python's expression
grammar reachable through `calculate`'s character pre-filter
(digits, `+ - * / % ( ) .` and space).  Numbers are modelled as exact
rationals; the `int`/`float` distinction is tracked because Python
distinguishes them in messages and formatting.  Irrational results of
`**` with a non-integer exponent fall outside the rational model and are
marked with a dedicated error constructor that no theorem relies on. -/

/-- Python numeric value: an `int` or a `float` (modelled as an exact rational). -/
inductive PyVal where
  | vint (n : ℤ)
  | vfloat (q : ℚ)
deriving DecidableEq, Repr

/-- Rational magnitude of a Python numeric value. -/
def PyVal.toQ : PyVal → ℚ
  | .vint n => (n : ℚ)
  | .vfloat q => q

/-- True when the value is a Python `float`. -/
def PyVal.isF : PyVal → Bool
  | .vint _ => false
  | .vfloat _ => true

/-- True when the value equals numeric zero. -/
def PyVal.isZero : PyVal → Bool
  | .vint n => n = 0
  | .vfloat q => q = 0

/-- Tokens of the arithmetic expression language. -/
inductive PyTok where
  | num (v : PyVal)
  | plus | minus | star | slash | dstar | dslash | percent
  | lparen | rparen | dot
deriving DecidableEq, Repr

/-- Fractional value of a digit run interpreted after a decimal point. -/
def fracVal (l : List Char) : ℚ :=
  (digitsVal l : ℚ) / ((10 : ℚ) ^ l.length)

/-- Tokenizer for the restricted expression charset (fuel-driven; fuel is
always at least the input length plus one, so it never runs out). -/
def pyLex (fuel : ℕ) (l : List Char) : Except Unit (List PyTok) :=
  match fuel, l with
  | _, [] => .ok []
  | 0, _ => .error ()
  | f + 1, c :: rest =>
    if c = Char.ofNat 32 then pyLex f rest
    else if c.isDigit then
      let ds := c :: rest.takeWhile Char.isDigit
      let r1 := rest.dropWhile Char.isDigit
      match r1 with
      | Char.ofNat 46 :: r2 =>
        let fs := r2.takeWhile Char.isDigit
        let r3 := r2.dropWhile Char.isDigit
        (pyLex f r3).map fun ts =>
          .num (.vfloat ((digitsVal ds : ℚ) + fracVal fs)) :: ts
      | _ =>
        (pyLex f r1).map fun ts => .num (.vint (digitsVal ds)) :: ts
    else if c = Char.ofNat 46 then
      match rest with
      | d :: _ =>
        if d.isDigit then
          let fs := rest.takeWhile Char.isDigit
          let r1 := rest.dropWhile Char.isDigit
          (pyLex f r1).map fun ts => .num (.vfloat (fracVal fs)) :: ts
        else (pyLex f rest).map fun ts => .dot :: ts
      | [] => .ok [.dot]
    else if c = '*' then
      match rest with
      | '*' :: r => (pyLex f r).map fun ts => .dstar :: ts
      | _ => (pyLex f rest).map fun ts => .star :: ts
    else if c = '/' then
      match rest with
      | '/' :: r => (pyLex f r).map fun ts => .dslash :: ts
      | _ => (pyLex f rest).map fun ts => .slash :: ts
    else if c = '+' then (pyLex f rest).map fun ts => .plus :: ts
    else if c = '-' then (pyLex f rest).map fun ts => .minus :: ts
    else if c = '%' then (pyLex f rest).map fun ts => .percent :: ts
    else if c = '(' then (pyLex f rest).map fun ts => .lparen :: ts
    else if c = ')' then (pyLex f rest).map fun ts => .rparen :: ts
    else .error ()

/-- Binary operator nodes produced by `ast.parse` on this charset.
`floordiv` corresponds to `ast.FloorDiv`, which is absent from the
evaluator's operator table. -/
inductive PyBOp where
  | add | sub | mul | div | mod | pow | floordiv
deriving DecidableEq, Repr

/-- Unary operator nodes (`ast.UAdd`, `ast.USub`). -/
inductive PyUOp where
  | pos | neg
deriving DecidableEq, Repr

/-- Expression AST nodes reachable from the restricted charset. -/
inductive PyExpr where
  | num (v : PyVal)
  | bin (op : PyBOp) (l r : PyExpr)
  | un (op : PyUOp) (e : PyExpr)
deriving DecidableEq, Repr

mutual

/-- Parse `expr := term (('+'|'-') term)*` (left associative). -/
def parsePE : ℕ → List PyTok → Except Unit (PyExpr × List PyTok)
  | 0, _ => .error ()
  | f + 1, ts => do
    let (l, ts1) ← parsePT f ts
    parsePERest f l ts1

/-- Left-fold the additive operators. -/
def parsePERest : ℕ → PyExpr → List PyTok → Except Unit (PyExpr × List PyTok)
  | 0, _, _ => .error ()
  | f + 1, acc, .plus :: ts => do
    let (r, ts1) ← parsePT f ts
    parsePERest f (.bin .add acc r) ts1
  | f + 1, acc, .minus :: ts => do
    let (r, ts1) ← parsePT f ts
    parsePERest f (.bin .sub acc r) ts1
  | _ + 1, acc, ts => .ok (acc, ts)

/-- Parse `term := factor (('*'|'/'|'%'|'//') factor)*` (left associative). -/
def parsePT : ℕ → List PyTok → Except Unit (PyExpr × List PyTok)
  | 0, _ => .error ()
  | f + 1, ts => do
    let (l, ts1) ← parsePF f ts
    parsePTRest f l ts1

/-- Left-fold the multiplicative operators. -/
def parsePTRest : ℕ → PyExpr → List PyTok → Except Unit (PyExpr × List PyTok)
  | 0, _, _ => .error ()
  | f + 1, acc, .star :: ts => do
    let (r, ts1) ← parsePF f ts
    parsePTRest f (.bin .mul acc r) ts1
  | f + 1, acc, .slash :: ts => do
    let (r, ts1) ← parsePF f ts
    parsePTRest f (.bin .div acc r) ts1
  | f + 1, acc, .percent :: ts => do
    let (r, ts1) ← parsePF f ts
    parsePTRest f (.bin .mod acc r) ts1
  | f + 1, acc, .dslash :: ts => do
    let (r, ts1) ← parsePF f ts
    parsePTRest f (.bin .floordiv acc r) ts1
  | _ + 1, acc, ts => .ok (acc, ts)

/-- Parse `factor := ('+'|'-') factor | power` (unary signs). -/
def parsePF : ℕ → List PyTok → Except Unit (PyExpr × List PyTok)
  | 0, _ => .error ()
  | f + 1, .plus :: ts => do
    let (e, ts1) ← parsePF f ts
    .ok (.un .pos e, ts1)
  | f + 1, .minus :: ts => do
    let (e, ts1) ← parsePF f ts
    .ok (.un .neg e, ts1)
  | f + 1, ts => parsePP f ts

/-- Parse `power := atom ('**' factor)?` (right associative exponent). -/
def parsePP : ℕ → List PyTok → Except Unit (PyExpr × List PyTok)
  | 0, _ => .error ()
  | f + 1, ts => do
    let (a, ts1) ← parsePA f ts
    match ts1 with
    | .dstar :: ts2 => do
      let (e, ts3) ← parsePF f ts2
      .ok (.bin .pow a e, ts3)
    | _ => .ok (a, ts1)

/-- Parse `atom := NUMBER | '(' expr ')'`. -/
def parsePA : ℕ → List PyTok → Except Unit (PyExpr × List PyTok)
  | 0, _ => .error ()
  | _ + 1, .num v :: ts => .ok (.num v, ts)
  | f + 1, .lparen :: ts => do
    let (e, ts1) ← parsePE f ts
    match ts1 with
    | .rparen :: ts2 => .ok (e, ts2)
    | _ => .error ()
  | _ + 1, _ => .error ()

end

/-- Error kinds raised inside `_safe_eval` and caught by its handler:
`SyntaxError`, `KeyError`, `TypeError`, `ZeroDivisionError`.  `modelGap`
marks the one spot (irrational result of `**`) that the rational model
cannot represent; no theorem depends on it. -/
inductive PyErr where
  | zerodiv (msg : String)
  | keyerr (msg : String)
  | typeerr (msg : String)
  | syn (msg : String)
  | modelGap (msg : String)
deriving DecidableEq, Repr

/-- Message carried by the error (Python `str(e)`). -/
def PyErr.msg : PyErr → String
  | .zerodiv m => m
  | .keyerr m => m
  | .typeerr m => m
  | .syn m => m
  | .modelGap m => m

/-- Python `%` on floats: `a - b * floor(a / b)` (`Rat.floor` is used
instead of `Int.floor` so the definition evaluates inside the kernel;
they agree by `Rat.floor_def`). -/
def pyFMod (a b : ℚ) : ℚ := a - b * (a / b).floor

/-- Apply a binary operator exactly as `_safe_eval`'s `_eval` does:
`FloorDiv` is missing from the operator table (`KeyError`), division and
modulo by zero raise `ZeroDivisionError` with Python's messages. -/
def applyBin (op : PyBOp) (a b : PyVal) : Except PyErr PyVal :=
  match op, a, b with
  | .add, .vint x, .vint y => .ok (.vint (x + y))
  | .add, x, y => .ok (.vfloat (x.toQ + y.toQ))
  | .sub, .vint x, .vint y => .ok (.vint (x - y))
  | .sub, x, y => .ok (.vfloat (x.toQ - y.toQ))
  | .mul, .vint x, .vint y => .ok (.vint (x * y))
  | .mul, x, y => .ok (.vfloat (x.toQ * y.toQ))
  | .div, x, y =>
    if y.isZero then
      .error (.zerodiv (if x.isF || y.isF then "float division by zero" else "division by zero"))
    else .ok (.vfloat (x.toQ / y.toQ))
  | .mod, .vint x, .vint y =>
    if y = 0 then .error (.zerodiv "integer division or modulo by zero")
    else .ok (.vint (Int.fmod x y))
  | .mod, x, y =>
    if y.isZero then .error (.zerodiv "float modulo")
    else .ok (.vfloat (pyFMod x.toQ y.toQ))
  | .pow, .vint x, .vint y =>
    if 0 ≤ y then .ok (.vint (x ^ y.toNat))
    else if x = 0 then .error (.zerodiv "0.0 cannot be raised to a negative power")
    else .ok (.vfloat (1 / ((x : ℚ) ^ (-y).toNat)))
  | .pow, x, y =>
    if y.toQ.den = 1 then
      if x.toQ = 0 ∧ y.toQ.num < 0 then
        .error (.zerodiv "0.0 cannot be raised to a negative power")
      else .ok (.vfloat (x.toQ ^ y.toQ.num))
    else .error (.modelGap "irrational power outside the rational model")
  | .floordiv, _, _ =>
    .error (.keyerr ("<class " ++ sqc ++ "ast.FloorDiv" ++ sqc ++ ">"))

/-- Apply a unary operator (`+x`, `-x`). -/
def applyUn (op : PyUOp) (a : PyVal) : PyVal :=
  match op, a with
  | .pos, v => v
  | .neg, .vint n => .vint (-n)
  | .neg, .vfloat q => .vfloat (-q)

/-- Recursive evaluation of the AST, mirroring `_eval`.  For `BinOp` the
operator table is consulted before the operands are evaluated, so a
`FloorDiv` node fails without touching its children, exactly as in
Python. -/
def evalPyExpr : PyExpr → Except PyErr PyVal
  | .num v => .ok v
  | .bin .floordiv _ _ =>
    .error (.keyerr ("<class " ++ sqc ++ "ast.FloorDiv" ++ sqc ++ ">"))
  | .bin op l r => do
    let a ← evalPyExpr l
    let b ← evalPyExpr r
    applyBin op a b
  | .un op e => do
    let a ← evalPyExpr e
    .ok (applyUn op a)

/-- Decimal rendering of the fractional digits of a float (model of
`str(float)`; exact for terminating decimals, which is all the claims
touch). -/
def fracDigits : ℕ → ℚ → List Char
  | 0, _ => []
  | f + 1, q =>
    if q = 0 then []
    else
      Char.ofNat (48 + (q * 10).floor.toNat) ::
        fracDigits f (q * 10 - (q * 10).floor)

/-- Python `str` of a numeric result (`str(int)` exact; `str(float)`
rendered as a terminating decimal in this model). -/
def pyStr : PyVal → String
  | .vint n => toString n
  | .vfloat q =>
    if |q| - |q|.floor = 0 then
      (if q < 0 then "-" else "") ++ toString (|q|).floor ++ ".0"
    else
      (if q < 0 then "-" else "") ++ toString (|q|).floor ++ "." ++
        String.mk (fracDigits 17 (|q| - |q|.floor))

/-- Model of `ToolRegistry._safe_eval`: tokenize, parse (`ast.parse` in
`eval` mode requires the whole input to be consumed), then evaluate.
Every caught exception is re-raised as `ValueError` whose message is
produced by `safeEvalMsg` below. -/
def safeEval (e : String) : Except PyErr PyVal :=
  let cs := e.toList
  match pyLex (cs.length + 1) cs with
  | .error _ => .error (.syn "invalid syntax (<unknown>, line 1)")
  | .ok ts =>
    match parsePE (4 * ts.length + 8) ts with
    | .ok (ast, []) => evalPyExpr ast
    | _ => .error (.syn "invalid syntax (<unknown>, line 1)")

/-- Character whitelist of `ToolRegistry.calculate`'s pre-filter, from the
source: `set("0123456789+-*/()%. ")` (space included). -/
def allowed_chars : List Char := "0123456789+-*/()%. ".toList

/-- Characters the CLAIM says are allowed: `0-9 + - * / % ( ) .`
(no space).  Spec-side definition used only to compare against the
source's `allowed_chars`. -/
def claimAllowedChars : List Char := "0123456789+-*/()%.".toList

/-- Model of `ToolRegistry.calculate`: pre-filter the characters, then
evaluate; every exception becomes an `Error: ...` string. -/
def calculate (expression : String) : String :=
  if expression.toList.all (· ∈ allowed_chars) then
    match safeEval expression with
    | .ok v => pyStr v
    | .error pe => "Error: " ++ "Invalid expression: " ++ pe.msg
  else "Error: Invalid characters in expression"

/-! ## RetrievalResult records

Python passes search results around as dictionaries; we embed them as a
record whose optional fields correspond to keys that may be absent. -/

/-- Retrieval result dictionary (`id`, `content`, `score`, fusion and
reranking fields, `sources`, `source`, `chunk_index`). -/
structure Result where
  id : Option String := none
  content : String := ""
  score : Option ℚ := none
  rrf_score : Option ℚ := none
  rerank_score : Option ℚ := none
  sources : List String := []
  source : Option String := none
  chunk_index : Option ℕ := none
deriving DecidableEq, Repr

/-! ## ToolExecutor (`app/rag/llm/tool_executor.py`)

A tool's `invoke` may raise; that is modelled as `Except String String`
carrying `str(e)`.  `execute_tool` looks the name up in a registry
(a partial map, `tool_registry.get_tool` returns `None` when absent). -/

/-- Keyword arguments passed to a tool (`**tool_args`). -/
abbrev ToolArgs := List (String × String)

/-- Callable registered in the `ToolRegistry`; an exception raised by the
call is the `error` case, carrying the exception's `str`. -/
abbrev Tool := ToolArgs → Except String String

/-- Model of `ToolExecutor.execute_tool`. -/
def execute_tool (reg : String → Option Tool) (tool_name : String)
    (args : Option ToolArgs) : String :=
  match reg tool_name with
  | none => "Error: Tool " ++ sqc ++ tool_name ++ sqc ++ " not found"
  | some t =>
    match t (args.getD []) with
    | .ok r => r
    | .error e => "Error executing tool: " ++ e

/-- Default registry shipped by `ToolRegistry._register_default_tools`:
`get_current_date` (wall clock passed in as `today`) and `calculate`.
Calling a Python function with wrong keyword arguments raises `TypeError`
whose message names the function, faithfully reproduced here. -/
def defaultRegistry (today : String) : String → Option Tool := fun n =>
  if n = "get_current_date" then
    some fun args =>
      match args with
      | [] => .ok today
      | (k, _) :: _ =>
        .error ("ToolRegistry.get_current_date() got an unexpected keyword argument "
          ++ sqc ++ k ++ sqc)
  else if n = "calculate" then
    some fun args =>
      match args with
      | [(k, v)] =>
        if k = "expression" then .ok (calculate v)
        else .error ("ToolRegistry.calculate() got an unexpected keyword argument "
          ++ sqc ++ k ++ sqc)
      | [] =>
        .error ("ToolRegistry.calculate() missing 1 required positional argument: "
          ++ sqc ++ "expression" ++ sqc)
      | _ :: (k2, _) :: _ =>
        .error ("ToolRegistry.calculate() got an unexpected keyword argument "
          ++ sqc ++ k2 ++ sqc)
  else none

/-- Registry holding one custom tool whose `invoke` always raises `boom`;
used to exercise the executor's exception handler. -/
def boomRegistry : String → Option Tool := fun n =>
  if n = "mytool" then some fun _ => .error "boom" else none

/-! ## HybridRetriever reciprocal rank fusion (`app/rag/retrieval/hybrid_retriever.py`) -/

/-- RRF constant, `self.rrf_k = 60`. -/
def rrf_k : ℕ := 60

/-- Score contribution of an item at 0-indexed `rank`:
`1.0 / (self.rrf_k + rank + 1)`. -/
def rrfScore (rank : ℕ) : ℚ := 1 / ((rrf_k : ℚ) + rank + 1)

/-- Value stored in the `fused` dictionary: the first-seen result copy,
the accumulated `rrf_score`, and the set of contributing sources
(insertion-ordered list without duplicates). -/
structure FEntry where
  result : Result
  rrf : ℚ
  srcs : List String
deriving DecidableEq, Repr

/-- Key under which a result is accumulated:
`result.get("id") or f"{source}_{rank}"` (`or` treats `""` as falsy). -/
def effKey (source : String) (rank : ℕ) (r : Result) : String :=
  match r.id with
  | some s => if s = "" then source ++ "_" ++ toString rank else s
  | none => source ++ "_" ++ toString rank

/-- Add `score` to an entry's accumulator and record the source. -/
def bumpEntry (source : String) (sc : ℚ) (e : FEntry) : FEntry :=
  { e with
      rrf := e.rrf + sc,
      srcs := if source ∈ e.srcs then e.srcs else e.srcs ++ [source] }

/-- One loop iteration of `add_results`: create the entry on first sight
(Python dicts preserve insertion order, so new keys go to the back), then
accumulate score and source. -/
def insertOrUpdate (key : String) (r : Result) (sc : ℚ) (source : String)
    (acc : List (String × FEntry)) : List (String × FEntry) :=
  if (acc.lookup key).isSome then
    acc.map fun p => if p.1 = key then (p.1, bumpEntry source sc p.2) else p
  else
    acc ++ [(key, bumpEntry source sc ⟨r, 0, []⟩)]

/-- The `add_results` inner function, folding a ranked list into the
accumulator starting at a given rank. -/
def addResultsFrom (source : String) : ℕ → List Result → List (String × FEntry) →
    List (String × FEntry)
  | _, [], acc => acc
  | rank, r :: rest, acc =>
    addResultsFrom source (rank + 1) rest
      (insertOrUpdate (effKey source rank r) r (rrfScore rank) source acc)

/-- The fully accumulated `fused` dictionary:
`add_results(bm25_results, "bm25"); add_results(vector_results, "vector")`. -/
def fusedMap (bm25_results vector_results : List Result) : List (String × FEntry) :=
  addResultsFrom "vector" 0 vector_results (addResultsFrom "bm25" 0 bm25_results [])

/-- Descending comparison on accumulated scores, the order of
`sorted(fused.values(), key=..., reverse=True)` (stable, like Python's sort). -/
def entryDescRel (a b : FEntry) : Prop := b.rrf ≤ a.rrf

instance : DecidableRel entryDescRel := fun a b =>
  inferInstanceAs (Decidable (b.rrf ≤ a.rrf))

instance : IsTotal FEntry entryDescRel := ⟨fun a b => le_total b.rrf a.rrf⟩

instance : IsTrans FEntry entryDescRel := ⟨fun _ _ _ h1 h2 => le_trans h2 h1⟩

/-- Python 3 `round` ties-to-even on an exact rational (`Rat.floor` and
`% 2` keep the definition kernel-computable). -/
def roundHalfEven (q : ℚ) : ℤ :=
  if q - q.floor < 1 / 2 then q.floor
  else if 1 / 2 < q - q.floor then q.floor + 1
  else if q.floor % 2 = 0 then q.floor else q.floor + 1

/-- Model of `round(x, 6)` used for the reported `rrf_score` field. -/
def pyRound6 (q : ℚ) : ℚ := (roundHalfEven (q * 1000000) : ℚ) / 1000000

/-- Python `sorted` on a list of strings (used for `sorted(item["sources"])`). -/
def sortStrings (l : List String) : List String := List.insertionSort (· ≤ ·) l

/-- Model of `HybridRetriever._reciprocal_rank_fusion`. -/
def reciprocal_rank_fusion (bm25_results vector_results : List Result)
    (top_k : ℕ) : List Result :=
  let ranked :=
    List.insertionSort entryDescRel ((fusedMap bm25_results vector_results).map Prod.snd)
  (ranked.take top_k).map fun e =>
    { e.result with
        rrf_score := some (pyRound6 e.rrf),
        sources := sortStrings e.srcs,
        source := some "hybrid" }

/-! ## Reranker (`app/rag/retrieval/reranker.py`)

The cross-encoder is external: the state holds `Option` of a predict
function (`None` when construction failed), and a predict call may fail
(`Except`). -/

/-- Reranker state: the optional `CrossEncoder` model and the
`settings.RERANK_TOP_K` fallback. -/
structure RerankerSt where
  model : Option (List (String × String) → Except String (List ℚ))
  rerank_top_k_setting : ℕ

/-- Descending order on `rerank_score` used by `sorted(..., reverse=True)`. -/
def rerankDescRel (a b : Result) : Prop :=
  b.rerank_score.getD 0 ≤ a.rerank_score.getD 0

instance : DecidableRel rerankDescRel := fun a b =>
  inferInstanceAs (Decidable (b.rerank_score.getD 0 ≤ a.rerank_score.getD 0))

/-- Model of `Reranker.rerank`.  Notes: `documents[:top_k] if top_k else
documents` uses Python truthiness (`None` and `0` are falsy);
`top_k = top_k or settings.RERANK_TOP_K` likewise.  When `predict`
returns fewer scores than documents, the sort key raises `KeyError` on
an unscored document and the handler returns `documents[:top_k]` with
the zipped prefix already mutated in place. -/
def rerankK (st : RerankerSt) (top_k : Option ℕ) : ℕ :=
  if top_k.getD 0 ≠ 0 then top_k.getD 0 else st.rerank_top_k_setting

/-- The zipped prefix of documents with `rerank_score` attached in place. -/
def rerankScored (documents : List Result) (scores : List ℚ) : List Result :=
  (documents.zip scores).map fun p => { p.1 with rerank_score := some p.2 }

/-- Model of `Reranker.rerank` (see the notes on `rerankK` and
`rerankScored` above for the truthiness and partial-mutation details). -/
def rerank (st : RerankerSt) (query : String) (documents : List Result)
    (top_k : Option ℕ) : List Result :=
  match st.model with
  | none =>
    if top_k.getD 0 ≠ 0 then documents.take (top_k.getD 0) else documents
  | some predict =>
    if documents = [] then []
    else
      match predict (documents.map fun d => (query, d.content)) with
      | .error _ => documents.take (rerankK st top_k)
      | .ok scores =>
        if scores.length < documents.length then
          (rerankScored documents scores ++ documents.drop scores.length).take (rerankK st top_k)
        else
          (List.insertionSort rerankDescRel (rerankScored documents scores)).take (rerankK st top_k)

/-! ## BM25Retriever (`app/rag/retrieval/bm25_retriever.py`)

The `rank_bm25.BM25Okapi` scoring function is an external library and is
passed in as an oracle `scorer`; `build_index` stores it applied to the
tokenized corpus, which is what `self.bm25 = BM25Okapi(...)` followed by
`self.bm25.get_scores(query)` amounts to. -/

/-- Document chunk fed to the keyword index (`content` may be a missing
key). -/
structure BMChunk where
  id : Option String := none
  content : Option String := none
  chunk_index : Option ℕ := none
deriving DecidableEq, Repr

/-- Worker for `splitWs` (fuel-driven, the input length is always a
sufficient budget). -/
def splitWsF : ℕ → List Char → List (List Char)
  | 0, _ => []
  | _, [] => []
  | f + 1, c :: rest =>
    if isPySpace c then splitWsF f rest
    else (c :: rest.takeWhile fun x => !isPySpace x)
      :: splitWsF f (rest.dropWhile fun x => !isPySpace x)

/-- Python `str.split()` (split on whitespace runs, dropping empties). -/
def splitWs (l : List Char) : List (List Char) := splitWsF l.length l

/-- `BM25Retriever._tokenize`: lower-case then whitespace split. -/
def pyTokenize (s : String) : List String :=
  (splitWs (pyLower s).toList).map fun cs => ⟨cs⟩

/-- State of a `BM25Retriever`: corpus, tokenized corpus, and the built
index (the scoring closure), or `none` before any successful build. -/
structure BM25St where
  corpus : List BMChunk
  tokenized_corpus : List (List String)
  bm25 : Option (List String → List ℚ)

/-- Freshly constructed retriever (`__init__`). -/
def bm25_init : BM25St := ⟨[], [], none⟩

/-- Model of `BM25Retriever.build_index`.  Returns the new state and the
message of the raised `ValueError`, if any.  On empty input it returns
early, leaving the previous state intact; on a chunk without `content`
it raises after `self.corpus` has already been replaced. -/
def build_index (scorer : List (List String) → List String → List ℚ)
    (st : BM25St) (chunks : List BMChunk) : BM25St × Option String :=
  if chunks = [] then (st, none)
  else if chunks.any fun c => c.content = none then
    ({ st with corpus := chunks }, some ("Chunk missing required key: " ++ sqc ++ "content" ++ sqc))
  else
    let tc := chunks.map fun c => pyTokenize (c.content.getD "")
    (⟨chunks, tc, some (scorer tc)⟩, none)

/-- Result dictionary assembled by `BM25Retriever.search` for corpus
position `idx` (`chunk.get("id") or f"bm25_{idx}"` with `""` falsy;
`chunk.get("chunk_index", idx)`). -/
def bm25ResultOfChunk (idx : ℕ) (c : BMChunk) (score : ℚ) (contentv : String) : Result :=
  { id := some (match c.id with
      | some s => if s = "" then "bm25_" ++ toString idx else s
      | none => "bm25_" ++ toString idx),
    content := contentv,
    score := some score,
    source := some "bm25",
    chunk_index := some (c.chunk_index.getD idx) }

/-- The result-building loop of `search`: skip non-positive scores
(`continue`), then access `self.corpus[idx]` and `chunk["content"]`;
`none` models the `IndexError`/`KeyError` path, which the outer handler
turns into `[]`. -/
def bm25BuildResults (corpus : List BMChunk) (scores : List ℚ) :
    List ℕ → Option (List Result)
  | [] => some []
  | i :: rest =>
    if scores.getD i 0 ≤ 0 then bm25BuildResults corpus scores rest
    else
      match corpus[i]? with
      | none => none
      | some c =>
        match c.content with
        | none => none
        | some txt =>
          (bm25BuildResults corpus scores rest).map
            fun rs => bm25ResultOfChunk i c (scores.getD i 0) txt :: rs

/-- Model of `BM25Retriever.search` (`top_k` defaults to
`settings.BM25_TOP_K` only when `None`; ranking is a stable descending
sort of corpus positions by score, truncated to `top_k` before the
positivity filter). -/
def bm25RankedIdxs (scores : List ℚ) (k : ℕ) : List ℕ :=
  (List.insertionSort
    (fun i j => scores.getD j 0 ≤ scores.getD i 0) (List.range scores.length)).take k

/-- Model of `BM25Retriever.search` body after the ranking step. -/
def bm25_search (st : BM25St) (query : String) (top_k : Option ℕ)
    (bm25_top_k_setting : ℕ) : List Result :=
  match st.bm25 with
  | none => []
  | some gs =>
    if st.corpus = [] then []
    else
      match bm25BuildResults st.corpus (gs (pyTokenize query))
          (bm25RankedIdxs (gs (pyTokenize query)) (top_k.getD bm25_top_k_setting)) with
      | some rs => rs
      | none => []

/-! ## Workflow state machine (`app/rag/workflow/*.py`)

LangGraph drives six nodes; the graph topology of `build_rag_graph` is a
fixed conditional pipeline, embedded as `run_rag_graph` below, which also
returns the list of visited nodes.  External effects (vector search, the
cross-encoder, the LLM, the wall clock) are oracles; wall-clock timings
of the metadata are not modelled. -/

/-- Failure of the retrieval stage: `(ValueError, RuntimeError)` versus
any other exception. -/
inductive RetFail where
  | known (msg : String)
  | unexpected (msg : String)
deriving DecidableEq, Repr

/-- Failure of the generation stage: `(ValueError, RuntimeError)` versus
any other exception. -/
inductive GenFail where
  | known (msg : String)
  | unexpected (msg : String)
deriving DecidableEq, Repr

/-- The `RAGState` TypedDict (timing fields omitted; `metadata["steps"]`
kept as `steps`, the count fields as options). -/
structure WFState where
  query : String
  user_id : ℤ
  thread_id : Option String := none
  bm25_results : Option (List Result) := none
  vector_results : Option (List Result) := none
  hybrid_results : Option (List Result) := none
  reranked_results : Option (List Result) := none
  context_documents : Option (List Result) := none
  answer : Option String := none
  tool_needed : Option Bool := none
  tool_result : Option String := none
  steps : List String := []
  documents_retrieved : Option ℕ := none
  documents_reranked : Option ℕ := none
  context_documents_used : Option ℕ := none
  error : Option String := none
deriving DecidableEq, Repr

/-- Model of `create_initial_state`. -/
def create_initial_state (query : String) (user_id : ℤ)
    (thread_id : Option String) : WFState :=
  { query := query, user_id := user_id, thread_id := thread_id }

/-- External collaborators of one query run. -/
structure WFOracles where
  bm25St : BM25St
  vector_search : Except RetFail (List Result)
  reranker : RerankerSt
  llm : Except GenFail String
  today : String
  BM25_TOP_K : ℕ

/-- Model of `HybridRetriever.search`: BM25 search (which swallows its
own errors), then the vector search (whose exception propagates), then
reciprocal rank fusion; `retrieval_node` calls it with `top_k=10`. -/
def hybrid_search (o : WFOracles) (query : String) : Except RetFail (List Result) :=
  match o.vector_search with
  | .error f => .error f
  | .ok vres =>
    .ok (reciprocal_rank_fusion
      (bm25_search o.bm25St query (some o.BM25_TOP_K) o.BM25_TOP_K) vres 10)

/-- Model of `retrieval_node`: on success records results, step and
count; on failure only sets `error` (the step append is skipped because
the exception jumps to the handler). -/
def retrieval_node (o : WFOracles) (s : WFState) : WFState :=
  match hybrid_search o s.query with
  | .ok results =>
    { s with hybrid_results := some results,
             steps := s.steps ++ ["retrieval"],
             documents_retrieved := some results.length }
  | .error (.known m) => { s with error := some ("Retrieval error: " ++ m) }
  | .error (.unexpected m) => { s with error := some ("Unexpected retrieval error: " ++ m) }

/-- Model of `reranking_node`.  `Reranker.rerank` handles its own
failures internally (degraded construction and scoring failures both
return truncations), so the node's `except` fallback is unreachable and
the node reduces to the empty-input early return plus the rerank call
with `top_k=5`. -/
def reranking_node (o : WFOracles) (s : WFState) : WFState :=
  let hybrid := s.hybrid_results.getD []
  if hybrid = [] then
    { s with reranked_results := some [], context_documents := some [] }
  else
    let reranked := rerank o.reranker s.query hybrid (some 5)
    { s with reranked_results := some reranked,
             context_documents := some reranked,
             steps := s.steps ++ ["reranking"],
             documents_reranked := some reranked.length }

/-- Trigger phrases of `tool_analysis_node` (`date` group then
`calculate` group; `tool_needed` is set when any phrase occurs in the
lower-cased query). -/
def tool_keywords : List String :=
  ["today", "current date", "what date", "what day",
   "calculate", "compute", "math", "sum", "multiply", "divide"]

/-- Model of `tool_analysis_node` (pure decision step). -/
def tool_analysis_node (s : WFState) : WFState :=
  let q := pyLower s.query
  { s with tool_needed := some (tool_keywords.any fun kw => pyIn kw q),
           steps := s.steps ++ ["tool_analysis"] }

/-- Model of `tool_execution_node`: the date branch wins when `date` or
`today` occurs; otherwise the arithmetic branch fires on `calculate` or
`compute`, extracts the first two integer literals and always evaluates
their sum (`f"{numbers[0]}+{numbers[1]}"`); with fewer than two integers
no `tool_result` is stored at all. -/
def tool_execution_node (o : WFOracles) (s : WFState) : WFState :=
  let q := pyLower s.query
  let s1 :=
    if pyIn "date" q || pyIn "today" q then
      { s with tool_result := some ("Current date: " ++
          execute_tool (defaultRegistry o.today) "get_current_date" none) }
    else if pyIn "calculate" q || pyIn "compute" q then
      match digitRuns q.toList with
      | n0 :: n1 :: _ =>
        { s with tool_result := some ("Calculation result: " ++
            execute_tool (defaultRegistry o.today) "calculate"
              (some [("expression", n0 ++ "+" ++ n1)])) }
      | _ => s
    else s
  { s1 with steps := s1.steps ++ ["tool_execution"] }

/-- Canned answer when there is neither context nor a tool result. -/
def no_info_answer : String :=
  "I couldn" ++ sqc ++
  "t find any relevant information in your documents to answer this question. Please upload relevant documents first."

/-- Fallback answer for a `(ValueError, RuntimeError)` generation failure. -/
def gen_known_fallback : String :=
  "I encountered a specific error while generating the answer. Please try again."

/-- Fallback answer for any other generation failure. -/
def gen_unexpected_fallback : String :=
  "I encountered an unexpected error while generating the answer. Please try again."

/-- Model of `generation_node`: short-circuits without calling the LLM
when there is neither context nor a truthy tool result; prepends the
tool result to a successful answer; on failure sets `error` plus a
fallback answer (step append skipped on the failure paths). -/
def generation_node (o : WFOracles) (s : WFState) : WFState :=
  let ctx := s.context_documents.getD []
  if ctx = [] ∧ truthyStr s.tool_result = false then
    { s with answer := some no_info_answer }
  else
    match o.llm with
    | .ok ans =>
      { s with
          answer := some (if truthyStr s.tool_result
            then s.tool_result.getD "" ++ "\n\n" ++ ans else ans),
          steps := s.steps ++ ["generation"],
          context_documents_used := some ctx.length }
    | .error (.known m) =>
      { s with error := some ("Generation error: " ++ m),
               answer := some gen_known_fallback }
    | .error (.unexpected m) =>
      { s with error := some ("Unexpected generation error: " ++ m),
               answer := some gen_unexpected_fallback }

/-- Model of `error_node`. -/
def error_node (s : WFState) : WFState :=
  { s with answer := some ("An error occurred: " ++ s.error.getD "Unknown error"),
           steps := s.steps ++ ["error"] }

/-- Nodes of the LangGraph workflow. -/
inductive WFNode where
  | retrieval | reranking | tool_analysis | tool_execution | generation | error
deriving DecidableEq, Repr

/-- Conditional edge `should_use_tool` (`state.get("tool_needed")` truthiness). -/
def should_use_tool (s : WFState) : Bool := s.tool_needed.getD false

/-- Conditional edge `check_error` (`state.get("error")` truthiness). -/
def check_error (s : WFState) : Bool := truthyStr s.error

/-- The compiled graph of `build_rag_graph`, as a function from the
initial state to the final state plus the list of visited nodes:
`retrieval → (error | reranking)`, `reranking → tool_analysis`,
`tool_analysis → (tool_execution | generation)`,
`tool_execution → generation`, `generation/error → END`. -/
def run_rag_graph (o : WFOracles) (s0 : WFState) : WFState × List WFNode :=
  let s1 := retrieval_node o s0
  if check_error s1 then (error_node s1, [.retrieval, .error])
  else
    let s2 := reranking_node o s1
    let s3 := tool_analysis_node s2
    if should_use_tool s3 then
      (generation_node o (tool_execution_node o s3),
        [.retrieval, .reranking, .tool_analysis, .tool_execution, .generation])
    else
      (generation_node o s3, [.retrieval, .reranking, .tool_analysis, .generation])

/-! ## Pipeline confidence (`app/utils/helpers.py`, `app/rag/pipeline.py`) -/

/-- Model of `calculate_confidence_score`: arithmetic mean of the
`score` values (`r.get("score", 0.0)`), `0.0` on an empty list. -/
def calculate_confidence_score (results : List Result) : ℚ :=
  if results = [] then 0
  else (results.map fun r => r.score.getD 0).sum / results.length

/-- Confidence computed by `RAGPipeline.process_query` from the final
workflow state: `calculate_confidence_score(context_documents)` when the
list is non-empty, else `0.0`. -/
def process_query_confidence (final : WFState) : ℚ :=
  let context_documents := final.context_documents.getD []
  if context_documents ≠ [] then calculate_confidence_score context_documents else 0

/-! ## TextChunker (`app/rag/processing/chunking.py`) -/

/-- Chunk produced by `chunk_text` (the `metadata` dict holds
`chunk_index`, `start_char`, `end_char`, lifted here to fields; the
caller-supplied base metadata is claim-irrelevant and omitted). -/
structure Chunk where
  content : List Char
  chunk_index : ℕ
  start_char : ℕ
  end_char : ℕ
deriving DecidableEq, Repr

/-- Python `text.rfind(sub, start, end)`: the highest index `i ≥ start`
with the match contained in `[start, end)`; `none` models `-1`. -/
def rfindIn (t sub : List Char) (s e : ℕ) : Option ℕ :=
  ((List.range (e + 1)).filter fun i =>
    decide (s ≤ i ∧ i + sub.length ≤ e ∧ pySlice t i (i + sub.length) = sub)).getLast?

/-- Boundary markers searched in priority order by `chunk_text`. -/
def chunkBoundaries : List (List Char) :=
  [". ".toList, "? ".toList, "! ".toList, "\n\n".toList, "\n".toList]

/-- The `for boundary in [...]` loop with its `else` fallback to the
nearest preceding space. -/
def findBoundaryEnd (t : List Char) (s e0 : ℕ) : List (List Char) → ℕ
  | [] =>
    match rfindIn t [Char.ofNat 32] s e0 with
    | some p => p + 1
    | none => e0
  | b :: bs =>
    match rfindIn t b s e0 with
    | some p => p + b.length
    | none => findBoundaryEnd t s e0 bs

/-- Window end before the `if end <= start` guard: raw edge `start +
chunk_size`, boundary-adjusted when the edge falls strictly inside the
text. -/
def pyEndRaw (chunk_size : ℕ) (t : List Char) (s : ℕ) : ℕ :=
  if s + chunk_size < t.length then findBoundaryEnd t s (s + chunk_size) chunkBoundaries
  else s + chunk_size

/-- One window-end computation of `chunk_text`: the adjusted edge, then
the `if end <= start: end = min(start + chunk_size, len(text))` guard. -/
def pyEnd (chunk_size : ℕ) (t : List Char) (s : ℕ) : ℕ :=
  if pyEndRaw chunk_size t s ≤ s then min (s + chunk_size) t.length
  else pyEndRaw chunk_size t s

/-- Next window start: `end - overlap` when that advances past the
previous start, else the forced step `prev_start + max(1, chunk_size -
overlap)` (comparisons done in ℤ in Python; `s + overlap < e` is the
equivalent ℕ form of `e - overlap > s`). -/
def nextStart (chunk_size overlap s e : ℕ) : ℕ :=
  if s + overlap < e then e - overlap else s + max 1 (chunk_size - overlap)

/-- The `while start < len(text)` loop of `chunk_text`, with an explicit
iteration budget.  Because every iteration advances `start` by at least
one character (`nextStart` exceeds `s`), a budget of `len(text) - start`
iterations always reaches the natural exit `start ≥ len(text)`; the
fuel-irrelevance lemma `chunkLoop_fuel` below makes this precise, so the
budgeted loop agrees with Python's unbounded `while`. -/
def chunkLoop (chunk_size overlap : ℕ) (t : List Char) : ℕ → ℕ → ℕ → List Chunk
  | 0, _, _ => []
  | fuel + 1, s, idx =>
    if s < t.length then
      ⟨pyStrip (pySlice t s (pyEnd chunk_size t s)), idx, s, pyEnd chunk_size t s⟩ ::
        chunkLoop chunk_size overlap t fuel
          (nextStart chunk_size overlap s (pyEnd chunk_size t s)) (idx + 1)
    else []

/-- Model of `TextChunker.chunk_text` (empty or whitespace-only text
returns `[]` up front). -/
def chunk_text (chunk_size overlap : ℕ) (t : List Char) : List Chunk :=
  if t = [] ∨ pyStrip t = [] then []
  else chunkLoop chunk_size overlap t t.length 0 0

/-- Concatenation of chunk contents with overlap regions removed: every
chunk after the first drops the characters its window shares with the
previous chunk's window (`prev_end - start_char` of them). -/
def joinFrom (prevEnd : ℕ) : List Chunk → List Char
  | [] => []
  | c :: rest => c.content.drop (prevEnd - c.start_char) ++ joinFrom c.end_char rest

/-- Concrete retrieval results used to instantiate fusion theorems. -/
def wDocA : Result := { id := some "a", content := "A", score := some 2 }

/-- Concrete retrieval result shared by both input lists. -/
def wDocB : Result := { id := some "b", content := "B", score := some 1 }

/-- Concrete retrieval result present only in the vector list. -/
def wDocC : Result := { id := some "c", content := "C" }

/-- Oracle configuration for the empty-LLM-answer counterexample: one
vector result, degraded reranker, LLM succeeding with `""`. -/
def c3Oracles : WFOracles :=
  { bm25St := bm25_init,
    vector_search := .ok [{ id := some "v1", content := "Paris is the capital.", score := some 1 }],
    reranker := ⟨none, 5⟩,
    llm := .ok "",
    today := "2026-10-12",
    BM25_TOP_K := 10 }

/-! ## Theorems

The remainder of the file settles the claims against the embedding
above.  Each claim has one main theorem; counterexamples are closed
statements at concrete inputs, and witnesses instantiate the
hypothesis-bearing theorems. -/

/-! ## C1 theorems -/

/-- C1 (counterexample): the claim's whitelist `0-9 + - * / % ( ) .` omits
the space character, which the source's pre-filter accepts: the expression
`"1 + 2"` contains a character outside the claimed set, yet `calculate`
evaluates it to `"3"` instead of rejecting it with an error string. -/
theorem calculate_space_counterexample :
    calculate "1 + 2" = "3" ∧
    Char.ofNat 32 ∈ "1 + 2".toList ∧
    Char.ofNat 32 ∉ claimAllowedChars ∧
    calculate "1 + 2" ≠ "Error: Invalid characters in expression" :=
  ⟨by rfl, by decide, by decide, by decide⟩

/-- C1 (amended): for the SafeEvaluator's `calculate` operation,
`"1+2*3"` evaluates to `"7"`; `"1/0"` returns the recoverable
division-by-zero error string; every expression containing a character
outside `0-9 + - * / % ( ) .` AND SPACE (in particular any letter) is
rejected with an error string before evaluation; and any evaluation
failure (division/modulo by zero, invalid expressions, unsupported
nodes) surfaces as a string starting with `"Error"`, never as an
uncaught exception (`calculate` is a total function into `String`). -/
theorem calculate_contract :
    calculate "1+2*3" = "7" ∧
    calculate "1/0" = "Error: Invalid expression: division by zero" ∧
    (∀ e : String, (∃ c ∈ e.toList, c ∉ allowed_chars) →
      calculate e = "Error: Invalid characters in expression") ∧
    (∀ (e : String) (pe : PyErr), safeEval e = .error pe →
      ∃ r, calculate e = "Error" ++ r) := by
  have hsplit : ∀ m : String,
      "Error: " ++ ("Invalid expression: " ++ m) = "Error" ++ (": Invalid expression: " ++ m) := by
    intro m
    rw [← String.append_assoc, ← String.append_assoc]
    congr 1
  have hsplit2 : ("Error: Invalid characters in expression" : String) =
      "Error" ++ ": Invalid characters in expression" := by congr 1
  refine ⟨by rfl, by rfl, ?_, ?_⟩
  · intro e hc
    have hall : e.toList.all (· ∈ allowed_chars) = false := by
      rw [List.all_eq_false]
      obtain ⟨c, hmem, hno⟩ := hc
      exact ⟨c, hmem, by simpa using hno⟩
    unfold calculate
    rw [hall]
    simp
  · intro e pe h
    by_cases hall : e.toList.all (· ∈ allowed_chars) = true
    · refine ⟨": Invalid expression: " ++ pe.msg, ?_⟩
      unfold calculate
      rw [hall, if_pos rfl, h]
      exact hsplit pe.msg
    · refine ⟨": Invalid characters in expression", ?_⟩
      unfold calculate
      rw [Bool.eq_false_iff.mpr hall] at *
      rw [if_neg (by simp), hsplit2]

/-- C1 (witness): concrete instances of the universally quantified parts
of `calculate_contract`: the letter expression `"a+b"` is rejected by the
pre-filter, and the malformed expression `"2*("` yields an error string. -/
theorem calculate_contract_witness :
    calculate "a+b" = "Error: Invalid characters in expression" ∧
    ∃ r, calculate "2*(" = "Error" ++ r :=
  ⟨calculate_contract.2.2.1 "a+b" ⟨Char.ofNat 97, by decide, by decide⟩,
   calculate_contract.2.2.2 "2*(" (PyErr.syn "invalid syntax (<unknown>, line 1)")
     (by rfl)⟩

/-! ## C2 lemmas: behaviour of the fused dictionary -/

theorem lookup_map_bump_ne (key key' src : String) (sc : ℚ) (hne : key' ≠ key)
    (acc : List (String × FEntry)) :
    (acc.map fun p => if p.1 = key then (p.1, bumpEntry src sc p.2) else p).lookup key'
      = acc.lookup key' := by
  induction acc with
  | nil => rfl
  | cons p rest ih =>
    obtain ⟨k, e⟩ := p
    rw [List.map_cons]
    by_cases hk : k = key
    · have hb : (key' == k) = false :=
        beq_eq_false_iff_ne.mpr (fun hh => hne (hh.trans hk))
      rw [if_pos hk]
      simp only [List.lookup, hb, ih]
    · rw [if_neg hk]
      cases hb : key' == k with
      | true => simp only [List.lookup, hb]
      | false => simp only [List.lookup, hb, ih]

theorem lookup_map_bump_eq (key src : String) (sc : ℚ)
    (acc : List (String × FEntry)) (e : FEntry) (h : acc.lookup key = some e) :
    (acc.map fun p => if p.1 = key then (p.1, bumpEntry src sc p.2) else p).lookup key
      = some (bumpEntry src sc e) := by
  induction acc with
  | nil => simp [List.lookup] at h
  | cons p rest ih =>
    obtain ⟨k, e0⟩ := p
    rw [List.map_cons]
    by_cases hk : k = key
    · subst hk
      simp only [List.lookup, beq_self_eq_true] at h
      injection h with h
      subst h
      rw [if_pos rfl]
      simp only [List.lookup, beq_self_eq_true]
    · have hb : (key == k) = false :=
        beq_eq_false_iff_ne.mpr (fun hh => hk hh.symm)
      rw [if_neg hk]
      simp only [List.lookup, hb] at h ⊢
      exact ih h

theorem lookup_append_single_ne (key key' : String) (x : FEntry)
    (acc : List (String × FEntry)) (hne : key' ≠ key) :
    (acc ++ [(key, x)]).lookup key' = acc.lookup key' := by
  induction acc with
  | nil =>
    have hb : (key' == key) = false := beq_eq_false_iff_ne.mpr hne
    simp only [List.nil_append, List.lookup, hb]
  | cons p rest ih =>
    obtain ⟨k, e⟩ := p
    rw [List.cons_append]
    cases hb : key' == k with
    | true => simp only [List.lookup, hb]
    | false => simp only [List.lookup, hb, ih]

theorem lookup_append_single_eq (key : String) (x : FEntry)
    (acc : List (String × FEntry)) (h : acc.lookup key = none) :
    (acc ++ [(key, x)]).lookup key = some x := by
  induction acc with
  | nil => simp only [List.nil_append, List.lookup, beq_self_eq_true]
  | cons p rest ih =>
    obtain ⟨k, e⟩ := p
    cases hb : key == k with
    | true =>
      simp only [List.lookup, hb] at h
      exact Option.noConfusion h
    | false =>
      rw [List.cons_append]
      simp only [List.lookup, hb] at h ⊢
      exact ih h

theorem lookup_insertOrUpdate_eq (key : String) (r : Result) (sc : ℚ) (src : String)
    (acc : List (String × FEntry)) :
    (insertOrUpdate key r sc src acc).lookup key =
      some (bumpEntry src sc ((acc.lookup key).getD ⟨r, 0, []⟩)) := by
  unfold insertOrUpdate
  cases h : acc.lookup key with
  | some e => simp [h, lookup_map_bump_eq key src sc acc e h]
  | none => simp [h, lookup_append_single_eq key _ acc h]

theorem lookup_insertOrUpdate_ne (key key' : String) (r : Result) (sc : ℚ) (src : String)
    (acc : List (String × FEntry)) (hne : key' ≠ key) :
    (insertOrUpdate key r sc src acc).lookup key' = acc.lookup key' := by
  unfold insertOrUpdate
  split_ifs with h
  · exact lookup_map_bump_ne key key' src sc hne acc
  · exact lookup_append_single_ne key key' _ acc hne

theorem lookup_addResultsFrom_absent (source : String) (rs : List Result) :
    ∀ (rank0 : ℕ) (acc : List (String × FEntry)) (key : String),
      (∀ r ∈ rs, ∃ s, r.id = some s ∧ s ≠ "" ∧ s ≠ key) →
      (addResultsFrom source rank0 rs acc).lookup key = acc.lookup key := by
  induction rs with
  | nil => intro _ _ _ _; rfl
  | cons r0 rest ih =>
    intro rank0 acc key h
    obtain ⟨s, hid, hs, hsk⟩ := h r0 (by simp)
    have heff : effKey source rank0 r0 = s := by simp [effKey, hid, hs]
    rw [addResultsFrom, ih (rank0 + 1) _ key (fun r hr => h r (by simp [hr])), heff]
    exact lookup_insertOrUpdate_ne s key _ _ _ _ (Ne.symm hsk)

theorem lookup_addResultsFrom_present (source : String) (rs : List Result) :
    ∀ (i rank0 : ℕ) (acc : List (String × FEntry)) (key : String) (r : Result),
      rs[i]? = some r → r.id = some key → key ≠ "" →
      (∀ r' ∈ rs, r'.id ≠ none ∧ r'.id ≠ some "") →
      (∀ j r', rs[j]? = some r' → j ≠ i → r'.id ≠ some key) →
      (addResultsFrom source rank0 rs acc).lookup key =
        some (bumpEntry source (rrfScore (rank0 + i))
          ((acc.lookup key).getD ⟨r, 0, []⟩)) := by
  induction rs with
  | nil => intro i _ _ _ _ hi; simp at hi
  | cons r0 rest ih =>
    intro i rank0 acc key r hi hid hkey hg hu
    cases i with
    | zero =>
      rw [List.getElem?_cons_zero] at hi
      injection hi with hi
      subst hi
      have heff : effKey source rank0 r0 = key := by simp [effKey, hid, hkey]
      rw [addResultsFrom]
      rw [lookup_addResultsFrom_absent source rest (rank0 + 1) _ key ?_]
      · rw [heff, lookup_insertOrUpdate_eq, Nat.add_zero]
      · intro r' hr'
        obtain ⟨j, hj⟩ := List.mem_iff_getElem?.mp hr'
        have hgood := hg r' (by simp [hr'])
        cases hidr' : r'.id with
        | none => exact absurd hidr' hgood.1
        | some s =>
          refine ⟨s, rfl, ?_, ?_⟩
          · intro hh; exact hgood.2 (by rw [hidr', hh])
          · intro hh
            subst hh
            exact hu (j + 1) r' (by simpa using hj) (by simp) hidr'
    | succ j =>
      rw [List.getElem?_cons_succ] at hi
      have hgood0 := hg r0 (by simp)
      cases hid0 : r0.id with
      | none => exact absurd hid0 hgood0.1
      | some s0 =>
        have hs0 : s0 ≠ "" := fun hh => hgood0.2 (by rw [hid0, hh])
        have hs0k : s0 ≠ key := by
          intro hh
          subst hh
          exact hu 0 r0 (by simp) (by simp) hid0
        have heff : effKey source rank0 r0 = s0 := by simp [effKey, hid0, hs0]
        rw [addResultsFrom]
        rw [ih j (rank0 + 1) _ key r hi hid hkey
          (fun r' hr' => hg r' (by simp [hr']))
          (fun j' r' hj' hne => hu (j' + 1) r' (by simpa using hj') (by simpa using hne))]
        rw [heff, lookup_insertOrUpdate_ne s0 key _ _ _ _ (Ne.symm hs0k)]
        have harith : rank0 + 1 + j = rank0 + (j + 1) := by omega
        rw [harith]

theorem rat_floor_eq (q : ℚ) : q.floor = ⌊q⌋ := by
  rw [Rat.floor_def', Rat.floor_def]

theorem roundHalfEven_bounds (q : ℚ) :
    ⌊q⌋ ≤ roundHalfEven q ∧ roundHalfEven q ≤ ⌊q⌋ + 1 := by
  unfold roundHalfEven
  rw [rat_floor_eq]
  split_ifs <;> omega

theorem roundHalfEven_mono {a b : ℚ} (h : a ≤ b) :
    roundHalfEven a ≤ roundHalfEven b := by
  by_cases hf : (⌊a⌋ : ℤ) = ⌊b⌋
  · have hfr : a - (⌊a⌋ : ℚ) ≤ b - (⌊b⌋ : ℚ) := by
      rw [hf]
      have : ((⌊b⌋ : ℤ) : ℚ) ≤ ((⌊b⌋ : ℤ) : ℚ) := le_refl _
      linarith
    unfold roundHalfEven
    rw [rat_floor_eq, rat_floor_eq, hf]
    split_ifs <;> first | omega | linarith
  · have hlt : ⌊a⌋ < ⌊b⌋ := lt_of_le_of_ne (Int.floor_le_floor h) hf
    have h1 := (roundHalfEven_bounds a).2
    have h2 := (roundHalfEven_bounds b).1
    omega

theorem pyRound6_mono {a b : ℚ} (h : a ≤ b) : pyRound6 a ≤ pyRound6 b := by
  unfold pyRound6
  have hr : roundHalfEven (a * 1000000) ≤ roundHalfEven (b * 1000000) :=
    roundHalfEven_mono (by linarith)
  have hc : ((roundHalfEven (a * 1000000) : ℤ) : ℚ) ≤ ((roundHalfEven (b * 1000000) : ℤ) : ℚ) := by
    exact_mod_cast hr
  exact (div_le_div_iff_of_pos_right (by norm_num)).mpr hc

/-- C2: an item at 0-indexed rank `i` in the keyword (BM25) list and rank
`j` in the vector list accumulates fused score exactly
`1/(60+i+1) + 1/(60+j+1)`; an item present in only one list gets exactly
the single corresponding term; the fused output of
`_reciprocal_rank_fusion` is sorted in descending order of this score
(the reported `rrf_score` field, a monotone rounding of it, is therefore
also descending) and is truncated to `top_k`.  Items are assumed to carry
non-empty `id`s that are unique within each list, which is what makes
"the rank of an item" well defined. -/
theorem rrf_fusion_formula (L1 L2 : List Result) (top_k : ℕ)
    (hg1 : ∀ r ∈ L1, r.id ≠ none ∧ r.id ≠ some "")
    (hg2 : ∀ r ∈ L2, r.id ≠ none ∧ r.id ≠ some "")
    (hp1 : L1.Pairwise fun r r' => r.id ≠ r'.id)
    (hp2 : L2.Pairwise fun r r' => r.id ≠ r'.id) :
    (∀ (key : String) (i j : ℕ) (r1 r2 : Result),
      L1[i]? = some r1 → r1.id = some key → L2[j]? = some r2 → r2.id = some key →
      ∃ e, (fusedMap L1 L2).lookup key = some e ∧
        e.rrf = 1 / (60 + (i : ℚ) + 1) + 1 / (60 + (j : ℚ) + 1)) ∧
    (∀ (key : String) (i : ℕ) (r1 : Result),
      L1[i]? = some r1 → r1.id = some key → (∀ r2 ∈ L2, r2.id ≠ some key) →
      ∃ e, (fusedMap L1 L2).lookup key = some e ∧
        e.rrf = 1 / (60 + (i : ℚ) + 1)) ∧
    (∀ (key : String) (j : ℕ) (r2 : Result),
      L2[j]? = some r2 → r2.id = some key → (∀ r1 ∈ L1, r1.id ≠ some key) →
      ∃ e, (fusedMap L1 L2).lookup key = some e ∧
        e.rrf = 1 / (60 + (j : ℚ) + 1)) ∧
    ((reciprocal_rank_fusion L1 L2 top_k).map
      (fun r => r.rrf_score.getD 0)).Pairwise (fun x y => y ≤ x) ∧
    (reciprocal_rank_fusion L1 L2 top_k).length ≤ top_k := by
  have goodId : ∀ r : Result, r.id ≠ none ∧ r.id ≠ some "" →
      ∃ s, r.id = some s ∧ s ≠ "" := by
    intro r h
    cases hid : r.id with
    | none => exact absurd hid h.1
    | some s => exact ⟨s, rfl, fun hh => h.2 (by rw [hid, hh])⟩
  have keyne : ∀ (L : List Result), (L.Pairwise fun r r' => r.id ≠ r'.id) →
      ∀ (i j : ℕ) (r r' : Result) (key : String), L[i]? = some r → r.id = some key →
        L[j]? = some r' → j ≠ i → r'.id ≠ some key := by
    intro L hp i j r r' key hi hid hj hne hid'
    rw [List.pairwise_iff_getElem] at hp
    obtain ⟨hilen, hig⟩ := List.getElem?_eq_some.mp hi
    obtain ⟨hjlen, hjg⟩ := List.getElem?_eq_some.mp hj
    rcases Nat.lt_or_ge i j with hlt | hge
    · exact hp i j hilen hjlen hlt (by rw [hig, hjg, hid, hid'])
    · have hlt : j < i := lt_of_le_of_ne hge hne
      exact hp j i hjlen hilen hlt (by rw [hig, hjg, hid, hid'])
  refine ⟨?_, ?_, ?_, ?_, ?_⟩
  · intro key i j r1 r2 hi hid1 hj hid2
    obtain ⟨s, hids, hsne⟩ := goodId r1 (hg1 r1 (List.getElem?_mem hi))
    have hkey : key ≠ "" := by
      rw [hids] at hid1
      injection hid1 with hh
      exact hh ▸ hsne
    unfold fusedMap
    rw [lookup_addResultsFrom_present "vector" L2 j 0 _ key r2 hj hid2 hkey hg2
      (fun j' r' hj' hne => keyne L2 hp2 j j' r2 r' key hj hid2 hj' hne)]
    rw [lookup_addResultsFrom_present "bm25" L1 i 0 _ key r1 hi hid1 hkey hg1
      (fun j' r' hj' hne => keyne L1 hp1 i j' r1 r' key hi hid1 hj' hne)]
    refine ⟨_, rfl, ?_⟩
    simp [bumpEntry, rrfScore, rrf_k]
  · intro key i r1 hi hid1 habs
    obtain ⟨s, hids, hsne⟩ := goodId r1 (hg1 r1 (List.getElem?_mem hi))
    have hkey : key ≠ "" := by
      rw [hids] at hid1
      injection hid1 with hh
      exact hh ▸ hsne
    unfold fusedMap
    rw [lookup_addResultsFrom_absent "vector" L2 0 _ key ?_]
    · rw [lookup_addResultsFrom_present "bm25" L1 i 0 _ key r1 hi hid1 hkey hg1
        (fun j' r' hj' hne => keyne L1 hp1 i j' r1 r' key hi hid1 hj' hne)]
      refine ⟨_, rfl, ?_⟩
      simp [bumpEntry, rrfScore, rrf_k]
    · intro r2 hr2
      obtain ⟨s2, hid2, hs2⟩ := goodId r2 (hg2 r2 hr2)
      refine ⟨s2, hid2, hs2, fun hh => ?_⟩
      exact habs r2 hr2 (hh ▸ hid2)
  · intro key j r2 hj hid2 habs
    obtain ⟨s, hids, hsne⟩ := goodId r2 (hg2 r2 (List.getElem?_mem hj))
    have hkey : key ≠ "" := by
      rw [hids] at hid2
      injection hid2 with hh
      exact hh ▸ hsne
    unfold fusedMap
    rw [lookup_addResultsFrom_present "vector" L2 j 0 _ key r2 hj hid2 hkey hg2
      (fun j' r' hj' hne => keyne L2 hp2 j j' r2 r' key hj hid2 hj' hne)]
    rw [lookup_addResultsFrom_absent "bm25" L1 0 _ key ?_]
    · refine ⟨_, rfl, ?_⟩
      simp [List.lookup, bumpEntry, rrfScore, rrf_k]
    · intro r1 hr1
      obtain ⟨s1, hid1, hs1⟩ := goodId r1 (hg1 r1 hr1)
      refine ⟨s1, hid1, hs1, fun hh => ?_⟩
      exact habs r1 hr1 (hh ▸ hid1)
  · have hs : List.Sorted entryDescRel
        (List.insertionSort entryDescRel ((fusedMap L1 L2).map Prod.snd)) :=
      List.sorted_insertionSort _ _
    have ht := List.Pairwise.sublist (List.take_sublist top_k _) hs
    unfold reciprocal_rank_fusion
    rw [List.map_map, List.pairwise_map]
    exact ht.imp fun h => by simpa using pyRound6_mono h
  · simp only [reciprocal_rank_fusion, List.length_map, List.length_take]
    exact Nat.min_le_left _ _

/-- C2 (witness): in the concrete lists `[wDocA, wDocB]` (keyword) and
`[wDocB, wDocC]` (vector), the shared item `b` sits at ranks 1 and 0 and
accumulates exactly `1/62 + 1/61`. -/
theorem rrf_fusion_formula_witness :
    ∃ e, (fusedMap [wDocA, wDocB] [wDocB, wDocC]).lookup "b" = some e ∧
      e.rrf = 1 / (60 + (1 : ℚ) + 1) + 1 / (60 + (0 : ℚ) + 1) :=
  (rrf_fusion_formula [wDocA, wDocB] [wDocB, wDocC] 10
    (by decide) (by decide) (by decide) (by decide)).1 "b" 1 0 wDocB wDocB
    (by rfl) (by rfl) (by rfl) (by rfl)

/-! ## C4 / C8 lemmas: chunking -/

theorem nextStart_gt (cs ov s e : ℕ) : s < nextStart cs ov s e := by
  unfold nextStart
  split_ifs with h
  · omega
  · have := Nat.le_max_left 1 (cs - ov)
    omega

theorem rfindIn_spec (t sub : List Char) (s e p : ℕ) (h : rfindIn t sub s e = some p) :
    s ≤ p ∧ p + sub.length ≤ e ∧ pySlice t p (p + sub.length) = sub := by
  unfold rfindIn at h
  have hmem := List.mem_of_mem_getLast? h
  have := List.of_mem_filter hmem
  simpa using this

theorem findBoundaryEnd_le (t : List Char) (s e0 : ℕ) :
    ∀ bs, findBoundaryEnd t s e0 bs ≤ e0 := by
  intro bs
  induction bs with
  | nil =>
    unfold findBoundaryEnd
    cases h : rfindIn t [Char.ofNat 32] s e0 with
    | none => simp
    | some p =>
      have := (rfindIn_spec t _ s e0 p h).2.1
      simpa using this
  | cons b rest ih =>
    unfold findBoundaryEnd
    cases h : rfindIn t b s e0 with
    | none => exact ih
    | some p => exact (rfindIn_spec t b s e0 p h).2.1

theorem pyEndRaw_le (cs : ℕ) (t : List Char) (s : ℕ) : pyEndRaw cs t s ≤ s + cs := by
  unfold pyEndRaw
  split_ifs with h
  · exact findBoundaryEnd_le t s (s + cs) chunkBoundaries
  · exact le_refl _

theorem pyEnd_le (cs : ℕ) (t : List Char) (s : ℕ) : pyEnd cs t s ≤ s + cs := by
  unfold pyEnd
  have hb := pyEndRaw_le cs t s
  split_ifs with h
  · exact min_le_left _ _
  · exact hb

theorem pyEnd_gt (cs : ℕ) (t : List Char) (s : ℕ) (hcs : 1 ≤ cs)
    (hs : s < t.length) : s < pyEnd cs t s := by
  unfold pyEnd
  split_ifs with h
  · exact lt_min (by omega) hs
  · omega

theorem chunkLoop_mem (cs ov : ℕ) (t : List Char) :
    ∀ (n s idx : ℕ), ∀ c ∈ chunkLoop cs ov t n s idx,
      c.start_char < t.length ∧ c.end_char = pyEnd cs t c.start_char ∧
      c.content = pyStrip (pySlice t c.start_char c.end_char) := by
  intro n
  induction n with
  | zero =>
    intro s idx c hc
    simp [chunkLoop] at hc
  | succ n ih =>
    intro s idx c hc
    simp only [chunkLoop] at hc
    by_cases h : s < t.length
    · rw [if_pos h] at hc
      rcases List.mem_cons.mp hc with hc | hc
      · subst hc
        exact ⟨h, rfl, rfl⟩
      · exact ih (nextStart cs ov s (pyEnd cs t s)) (idx + 1) c hc
    · rw [if_neg h] at hc
      exact absurd hc (List.not_mem_nil c)

theorem chunkLoop_head_start (cs ov : ℕ) (t : List Char) (n s idx : ℕ) (c : Chunk)
    (h : (chunkLoop cs ov t n s idx).head? = some c) : c.start_char = s := by
  cases n with
  | zero => simp [chunkLoop] at h
  | succ n =>
    simp only [chunkLoop] at h
    by_cases hlt : s < t.length
    · rw [if_pos hlt] at h
      simp only [List.head?_cons] at h
      injection h with h
      rw [← h]
    · rw [if_neg hlt] at h
      simp at h

theorem chunkLoop_chain (cs ov : ℕ) (t : List Char) :
    ∀ (n s idx : ℕ),
      (chunkLoop cs ov t n s idx).Chain' fun a b => a.start_char < b.start_char := by
  intro n
  induction n with
  | zero =>
    intro s idx
    exact List.chain'_nil
  | succ n ih =>
    intro s idx
    simp only [chunkLoop]
    by_cases h : s < t.length
    · rw [if_pos h]
      have hgt := nextStart_gt cs ov s (pyEnd cs t s)
      refine List.chain'_cons'.mpr ⟨?_, ih _ (idx + 1)⟩
      intro b hb
      have hstart := chunkLoop_head_start cs ov t n _ (idx + 1) b hb
      simpa [hstart] using hgt
    · rw [if_neg h]
      exact List.chain'_nil

theorem chunkLoop_fuel (cs ov : ℕ) (t : List Char) :
    ∀ (n m s idx : ℕ), t.length - s ≤ n → t.length - s ≤ m →
      chunkLoop cs ov t n s idx = chunkLoop cs ov t m s idx := by
  intro n
  induction n with
  | zero =>
    intro m s idx hn hm
    cases m with
    | zero => rfl
    | succ m =>
      simp only [chunkLoop]
      rw [if_neg (by omega)]
  | succ n ih =>
    intro m s idx hn hm
    cases m with
    | zero =>
      simp only [chunkLoop]
      rw [if_neg (by omega)]
    | succ m =>
      simp only [chunkLoop]
      by_cases h : s < t.length
      · rw [if_pos h, if_pos h]
        have hgt := nextStart_gt cs ov s (pyEnd cs t s)
        rw [ih m _ (idx + 1) (by omega) (by omega)]
      · rw [if_neg h, if_neg h]

theorem dropWhile_eq_self_of_none (p : Char → Bool) (l : List Char)
    (h : ∀ c ∈ l, p c = false) : l.dropWhile p = l := by
  cases l with
  | nil => rfl
  | cons c rest => simp [List.dropWhile, h c (by simp)]

theorem pyStrip_eq_self (l : List Char) (h : ∀ c ∈ l, isPySpace c = false) :
    pyStrip l = l := by
  unfold pyStrip
  rw [dropWhile_eq_self_of_none _ _ h]
  rw [dropWhile_eq_self_of_none _ _ (fun c hc => h c (List.mem_reverse.mp hc))]
  exact List.reverse_reverse l

theorem rfindIn_none_of_ws (t sub : List Char) (s e : ℕ)
    (hws : ∀ c ∈ t, isPySpace c = false)
    (hsub : ∃ c ∈ sub, isPySpace c = true) : rfindIn t sub s e = none := by
  unfold rfindIn
  rw [List.filter_eq_nil_iff.mpr ?_]
  · rfl
  · intro i _
    simp only [decide_eq_true_eq, not_and]
    intro _ _ hslice
    obtain ⟨w, hwsub, hw⟩ := hsub
    have hsl : List.Sublist (pySlice t i (i + sub.length)) t :=
      (List.take_sublist _ _).trans (List.drop_sublist _ _)
    have hwt : w ∈ t := hsl.mem (by rw [hslice]; exact hwsub)
    rw [hws w hwt] at hw
    exact Bool.false_ne_true hw

theorem pyEnd_noWs (cs : ℕ) (t : List Char) (s : ℕ) (hcs : 1 ≤ cs)
    (hws : ∀ c ∈ t, isPySpace c = false) : pyEnd cs t s = s + cs := by
  have hfb : findBoundaryEnd t s (s + cs) chunkBoundaries = s + cs := by
    have hnone : ∀ b ∈ chunkBoundaries, rfindIn t b s (s + cs) = none := by
      intro b hb
      refine rfindIn_none_of_ws t b s (s + cs) hws ?_
      fin_cases hb <;> decide
    have hsp : rfindIn t [Char.ofNat 32] s (s + cs) = none :=
      rfindIn_none_of_ws t _ s (s + cs) hws ⟨Char.ofNat 32, by simp, by decide⟩
    simp only [chunkBoundaries] at hnone ⊢
    rw [findBoundaryEnd, hnone _ (by simp)]
    rw [findBoundaryEnd, hnone _ (by simp)]
    rw [findBoundaryEnd, hnone _ (by simp)]
    rw [findBoundaryEnd, hnone _ (by simp)]
    rw [findBoundaryEnd, hnone _ (by simp)]
    rw [findBoundaryEnd, hsp]
  have hraw : pyEndRaw cs t s = s + cs := by
    unfold pyEndRaw
    split_ifs with h
    · exact hfb
    · rfl
  unfold pyEnd
  rw [hraw, if_neg (by omega)]

theorem noWs_slice (t : List Char) (a b : ℕ) (hws : ∀ c ∈ t, isPySpace c = false) :
    ∀ c ∈ pySlice t a b, isPySpace c = false := by
  intro c hc
  have hsl : List.Sublist (pySlice t a b) t :=
    (List.take_sublist _ _).trans (List.drop_sublist _ _)
  exact hws c (hsl.mem hc)

theorem chunkLoop_join (cs ov : ℕ) (t : List Char) (hcs : 1 ≤ cs) (hov : ov < cs)
    (hws : ∀ c ∈ t, isPySpace c = false) :
    ∀ (n s idx p : ℕ), t.length - s ≤ n → s ≤ p → p ≤ s + cs →
      joinFrom p (chunkLoop cs ov t n s idx) = t.drop p := by
  intro n
  induction n with
  | zero =>
    intro s idx p hn hsp hpc
    rw [show chunkLoop cs ov t 0 s idx = [] from rfl, joinFrom]
    exact (List.drop_eq_nil_of_le (by omega)).symm
  | succ n ih =>
    intro s idx p hn hsp hpc
    simp only [chunkLoop]
    by_cases h : s < t.length
    · rw [if_pos h]
      have he : pyEnd cs t s = s + cs := pyEnd_noWs cs t s hcs hws
      have hnext : nextStart cs ov s (s + cs) = s + cs - ov := by
        unfold nextStart
        rw [if_pos (by omega)]
      rw [he, joinFrom]
      dsimp only
      rw [hnext]
      rw [ih (s + cs - ov) (idx + 1) (s + cs) (by omega) (by omega) (by omega)]
      rw [pyStrip_eq_self _ (noWs_slice t s (s + cs) hws)]
      unfold pySlice
      rw [List.drop_take, List.drop_drop]
      have h1 : s + (p - s) = p := by omega
      rw [h1]
      have h2 : t.drop (s + cs) = (t.drop p).drop (s + cs - s - (p - s)) := by
        rw [List.drop_drop]
        congr 1
        omega
      rw [h2, List.take_append_drop]
    · rw [if_neg h, joinFrom]
      exact (List.drop_eq_nil_of_le (by omega)).symm

theorem chunkLoop_length (cs ov : ℕ) (t : List Char)
    (hov : cs ≤ ov) :
    ∀ (n s idx : ℕ), t.length - s ≤ n →
      (chunkLoop cs ov t n s idx).length = t.length - s := by
  intro n
  induction n with
  | zero =>
    intro s idx hn
    rw [show chunkLoop cs ov t 0 s idx = [] from rfl]
    simp
    omega
  | succ n ih =>
    intro s idx hn
    simp only [chunkLoop]
    by_cases h : s < t.length
    · rw [if_pos h]
      have hle := pyEnd_le cs t s
      have hnext : nextStart cs ov s (pyEnd cs t s) = s + 1 := by
        unfold nextStart
        rw [if_neg (by omega)]
        have h0 : cs - ov = 0 := by omega
        rw [h0]
        rfl
      rw [List.length_cons, hnext, ih (s + 1) (idx + 1) (by omega)]
      omega
    · rw [if_neg h]
      simp
      omega

/-! ## C4 / C8 theorems -/

/-- C4 (counterexample): with `chunk_size = 5`, `overlap = 0` (so
`0 ≤ overlap < chunk_size`) and the non-empty text `"ab cd ef"`,
concatenating the chunks' contents with overlap regions removed yields
`"abcd ef"`, not the original text: `chunk_text` strips whitespace from
each chunk's content (and boundary cuts can also skip characters), so
exact reconstruction fails. -/
theorem chunk_text_reconstruction_counterexample :
    "ab cd ef".toList ≠ [] ∧ (0 : ℕ) < 5 ∧
    joinFrom 0 (chunk_text 5 0 "ab cd ef".toList) ≠ "ab cd ef".toList :=
  ⟨by decide, by decide, by decide⟩

/-- C4 (amended): for `0 ≤ overlap < chunk_size`: every chunk satisfies
`start_char < end_char`; consecutive `start_char` values are strictly
increasing; empty or whitespace-only input yields `[]`; each chunk's
content is the whitespace-stripped slice `text[start_char:end_char]`;
and for text containing no whitespace (where stripping is the identity
and no boundary cut fires) concatenating the chunks with overlaps
removed reconstructs the text exactly. -/
theorem chunk_text_coverage (chunk_size overlap : ℕ) (t : List Char)
    (hov : overlap < chunk_size) :
    (∀ c ∈ chunk_text chunk_size overlap t,
        c.start_char < c.end_char ∧
        c.content = pyStrip (pySlice t c.start_char c.end_char)) ∧
    ((chunk_text chunk_size overlap t).Chain' fun a b => a.start_char < b.start_char) ∧
    (pyStrip t = [] → chunk_text chunk_size overlap t = []) ∧
    ((∀ c ∈ t, isPySpace c = false) → t ≠ [] →
      joinFrom 0 (chunk_text chunk_size overlap t) = t) := by
  have hcs : 1 ≤ chunk_size := by omega
  refine ⟨?_, ?_, ?_, ?_⟩
  · intro c hc
    unfold chunk_text at hc
    split_ifs at hc with hemp
    · exact absurd hc (List.not_mem_nil c)
    · obtain ⟨hlt, hend, hcont⟩ :=
        chunkLoop_mem chunk_size overlap t t.length 0 0 c hc
      exact ⟨hend ▸ pyEnd_gt chunk_size t c.start_char hcs hlt, hcont⟩
  · unfold chunk_text
    split_ifs with hemp
    · exact List.chain'_nil
    · exact chunkLoop_chain chunk_size overlap t t.length 0 0
  · intro hstrip
    unfold chunk_text
    rw [if_pos (Or.inr hstrip)]
  · intro hws hne
    unfold chunk_text
    rw [if_neg ?_]
    · exact chunkLoop_join chunk_size overlap t hcs hov hws t.length 0 0 0
        (by omega) (le_refl 0) (by omega)
    · push_neg
      refine ⟨hne, ?_⟩
      rw [pyStrip_eq_self t hws]
      exact hne

/-- C4 (witness): with `chunk_size = 3`, `overlap = 1` and the
whitespace-free text `"abcdefgh"`, removing the one-character overlaps
reconstructs the text exactly. -/
theorem chunk_text_coverage_witness :
    joinFrom 0 (chunk_text 3 1 "abcdefgh".toList) = "abcdefgh".toList :=
  (chunk_text_coverage 3 1 "abcdefgh".toList (by norm_num)).2.2.2
    (by decide) (by decide)

/-- C8 (counterexample): the whitespace-only text `"   "` (length 3)
with `chunk_size = 1`, `overlap = 2` produces zero chunks, below the
claimed bound `ceil(3/1) = 3`: the claim's "for every text" fails on
whitespace-only input, which short-circuits to `[]`. -/
theorem chunk_text_whitespace_counterexample :
    chunk_text 1 2 "   ".toList = [] ∧
    ¬ (("   ".toList.length + 1 - 1) / 1 ≤ (chunk_text 1 2 "   ".toList).length) :=
  ⟨by decide, by decide⟩

/-- C8 (amended): for every text that is not empty or whitespace-only
and every configuration with `chunk_size ≥ 1` and `overlap ≥
chunk_size`, `chunk_text` terminates (it is a total function) and
produces exactly `len(text)` chunks — in particular at least
`ceil(len(text)/chunk_size)` — because the forced forward step
`max(1, chunk_size - overlap)` degenerates to 1. -/
theorem chunk_text_forward_progress (chunk_size overlap : ℕ) (t : List Char)
    (hcs : 1 ≤ chunk_size) (hov : chunk_size ≤ overlap) (hne : pyStrip t ≠ []) :
    (chunk_text chunk_size overlap t).length = t.length ∧
    (t.length + chunk_size - 1) / chunk_size ≤ (chunk_text chunk_size overlap t).length := by
  have htne : t ≠ [] := by
    intro hh
    subst hh
    exact hne rfl
  have hlen : (chunk_text chunk_size overlap t).length = t.length := by
    unfold chunk_text
    rw [if_neg (by push_neg; exact ⟨htne, hne⟩)]
    rw [chunkLoop_length chunk_size overlap t hov t.length 0 0 (by omega)]
    omega
  refine ⟨hlen, ?_⟩
  rw [hlen]
  have h1 : t.length ≤ chunk_size * t.length := Nat.le_mul_of_pos_left _ (by omega)
  rw [Nat.div_le_iff_le_mul_add_pred hcs]
  omega

/-- C8 (witness): `"abc"` with `chunk_size = 1`, `overlap = 2` yields 3
chunks, meeting the `ceil(3/1)` bound. -/
theorem chunk_text_forward_progress_witness :
    (chunk_text 1 2 "abc".toList).length = 3 ∧
    ("abc".toList.length + 1 - 1) / 1 ≤ (chunk_text 1 2 "abc".toList).length := by
  have h := chunk_text_forward_progress 1 2 "abc".toList (by norm_num)
    (by norm_num) (by decide)
  exact ⟨h.1, h.2⟩

/-! ## C5 theorems -/

/-- C5 (counterexample): in degraded mode (`model is None`) a falsy
`top_k` skips the truncation entirely: `rerank(q, [d], top_k=0)` returns
the whole input list, not the first `0` documents as the claim states. -/
theorem rerank_topk_zero_counterexample :
    rerank ⟨none, 5⟩ "q" [wDocA] (some 0) = [wDocA] ∧
    List.take 0 [wDocA] = ([] : List Result) ∧
    rerank ⟨none, 5⟩ "q" [wDocA] (some 0) ≠ List.take 0 [wDocA] :=
  ⟨rfl, rfl, by decide⟩

/-- C5 (amended): for every truthy `top_k ≥ 1`: when the scoring model
is unavailable at construction time, `rerank` returns the first `top_k`
input documents unchanged (in particular without attaching any
`rerank_score`) and cannot raise (it is a total function); when the
scoring call fails mid-call, `rerank` returns the input list truncated
to `top_k`.  For falsy `top_k` (`None` or `0`), degraded mode returns
the entire input list and a mid-call failure truncates to the
configured `RERANK_TOP_K` instead. -/
theorem rerank_degraded (st : RerankerSt) (query : String)
    (documents : List Result) (k : ℕ) (hk : 1 ≤ k) :
    (st.model = none → rerank st query documents (some k) = documents.take k) ∧
    (∀ predict e, st.model = some predict →
      predict (documents.map fun d => (query, d.content)) = .error e →
      rerank st query documents (some k) = documents.take k) := by
  have hkk : rerankK st (some k) = k := by
    unfold rerankK
    rw [if_pos (by simp; omega)]
    rfl
  constructor
  · intro hm
    unfold rerank
    rw [hm]
    rw [if_pos (by simp; omega)]
    rfl
  · intro predict e hm hp
    unfold rerank
    rw [hm]
    by_cases hd : documents = []
    · subst hd
      simp
    · replace hp : (match predict (documents.map fun d => (query, d.content)) with
        | Except.error _ => documents.take (rerankK st (some k))
        | Except.ok scores =>
          if scores.length < documents.length then
            (rerankScored documents scores ++
              documents.drop scores.length).take (rerankK st (some k))
          else
            (List.insertionSort rerankDescRel
              (rerankScored documents scores)).take (rerankK st (some k))) =
          documents.take (rerankK st (some k)) := by rw [hp]
      show (if documents = [] then [] else
        match predict (documents.map fun d => (query, d.content)) with
        | Except.error _ => documents.take (rerankK st (some k))
        | Except.ok scores =>
          if scores.length < documents.length then
            (rerankScored documents scores ++
              documents.drop scores.length).take (rerankK st (some k))
          else
            (List.insertionSort rerankDescRel
              (rerankScored documents scores)).take (rerankK st (some k))) =
        documents.take k
      rw [if_neg hd, hp, hkk]

/-- C5 (witness): a degraded reranker and a mid-call scoring failure
both return the first `top_k = 1` documents unchanged on a concrete
two-document input. -/
theorem rerank_degraded_witness :
    rerank ⟨none, 5⟩ "q" [wDocA, wDocB] (some 1) = [wDocA] ∧
    rerank ⟨some fun _ => .error "cuda device unavailable", 5⟩ "q"
      [wDocA, wDocB] (some 1) = [wDocA] := by
  constructor
  · exact (rerank_degraded ⟨none, 5⟩ "q" [wDocA, wDocB] 1 (by norm_num)).1 rfl
  · exact (rerank_degraded ⟨some fun _ => .error "cuda device unavailable", 5⟩ "q"
      [wDocA, wDocB] 1 (by norm_num)).2 _ "cuda device unavailable" rfl rfl

/-! ## C6 lemmas and theorems -/

theorem bm25BuildResults_sound (corpus : List BMChunk) (scores : List ℚ) :
    ∀ (idxs : List ℕ) (rs : List Result), bm25BuildResults corpus scores idxs = some rs →
      (∀ r ∈ rs, ∃ s, r.score = some s ∧ 0 < s) ∧ rs.length ≤ idxs.length := by
  intro idxs
  induction idxs with
  | nil =>
    intro rs h
    injection h with h
    subst h
    exact ⟨by simp, by simp⟩
  | cons i rest ih =>
    intro rs h
    simp only [bm25BuildResults] at h
    by_cases hsc : scores.getD i 0 ≤ 0
    · rw [if_pos hsc] at h
      obtain ⟨h1, h2⟩ := ih rs h
      exact ⟨h1, by simpa using Nat.le_succ_of_le h2⟩
    · rw [if_neg hsc] at h
      cases hc : corpus[i]? with
      | none =>
        rw [hc] at h
        exact Option.noConfusion h
      | some c =>
        rw [hc] at h
        replace h : (match c.content with
          | none => none
          | some txt => (bm25BuildResults corpus scores rest).map
              fun rs => bm25ResultOfChunk i c (scores.getD i 0) txt :: rs) = some rs := h
        cases hcont : c.content with
        | none =>
          rw [hcont] at h
          exact Option.noConfusion h
        | some txt =>
          rw [hcont] at h
          cases hrec : bm25BuildResults corpus scores rest with
          | none =>
            rw [hrec] at h
            exact Option.noConfusion h
          | some rs0 =>
            rw [hrec] at h
            simp only [Option.map_some'] at h
            injection h with h
            subst h
            obtain ⟨h1, h2⟩ := ih rs0 hrec
            constructor
            · intro r hr
              rcases List.mem_cons.mp hr with hr | hr
              · subst hr
                exact ⟨scores.getD i 0, rfl, not_le.mp hsc⟩
              · exact h1 r hr
            · simpa using Nat.succ_le_succ h2

/-- C6: `search` on an index that was never successfully built returns
`[]`; `build_index` on an empty chunk list is a no-op returning the
previous state with no error (so searching after an empty-only build
still returns `[]`); every result of a `search` with `top_k = k` carries
a strictly positive BM25 score; and the result count is capped at `k`. -/
theorem bm25_contract :
    (∀ (st : BM25St) (q : String) (tk : Option ℕ) (dk : ℕ),
      st.bm25 = none → bm25_search st q tk dk = []) ∧
    (∀ (scorer : List (List String) → List String → List ℚ) (st : BM25St),
      build_index scorer st [] = (st, none)) ∧
    (∀ (st : BM25St) (q : String) (k dk : ℕ),
      ∀ r ∈ bm25_search st q (some k) dk, ∃ s, r.score = some s ∧ 0 < s) ∧
    (∀ (st : BM25St) (q : String) (k dk : ℕ),
      (bm25_search st q (some k) dk).length ≤ k) := by
  refine ⟨?_, ?_, ?_, ?_⟩
  · intro st q tk dk hm
    unfold bm25_search
    rw [hm]
  · intro scorer st
    unfold build_index
    rw [if_pos rfl]
  · intro st q k dk r hr
    unfold bm25_search at hr
    cases hm : st.bm25 with
    | none =>
      rw [hm] at hr
      exact absurd hr (List.not_mem_nil r)
    | some gs =>
      rw [hm] at hr
      replace hr : r ∈ (if st.corpus = [] then ([] : List Result) else
          match bm25BuildResults st.corpus (gs (pyTokenize q))
              (bm25RankedIdxs (gs (pyTokenize q)) ((some k).getD dk)) with
          | some rs => rs
          | none => []) := hr
      by_cases hcor : st.corpus = []
      · rw [if_pos hcor] at hr
        exact absurd hr (List.not_mem_nil r)
      · rw [if_neg hcor] at hr
        cases hres : bm25BuildResults st.corpus (gs (pyTokenize q))
            (bm25RankedIdxs (gs (pyTokenize q)) ((some k).getD dk)) with
        | none =>
          rw [hres] at hr
          exact absurd hr (List.not_mem_nil r)
        | some rs =>
          rw [hres] at hr
          exact (bm25BuildResults_sound st.corpus _ _ rs hres).1 r hr
  · intro st q k dk
    unfold bm25_search
    cases hm : st.bm25 with
    | none => simp
    | some gs =>
      show (if st.corpus = [] then ([] : List Result) else
          match bm25BuildResults st.corpus (gs (pyTokenize q))
              (bm25RankedIdxs (gs (pyTokenize q)) ((some k).getD dk)) with
          | some rs => rs
          | none => []).length ≤ k
      by_cases hcor : st.corpus = []
      · rw [if_pos hcor]
        simp
      · rw [if_neg hcor]
        cases hres : bm25BuildResults st.corpus (gs (pyTokenize q))
            (bm25RankedIdxs (gs (pyTokenize q)) ((some k).getD dk)) with
        | none => simp
        | some rs =>
          show rs.length ≤ k
          have h2 := (bm25BuildResults_sound st.corpus _ _ rs hres).2
          have h3 : (bm25RankedIdxs (gs (pyTokenize q)) ((some k).getD dk)).length ≤ k := by
            unfold bm25RankedIdxs
            simp only [List.length_take, Option.getD_some]
            exact Nat.min_le_left _ _
          omega

/-- C6 (witness): the freshly constructed retriever returns `[]` and an
empty build is a no-op on it. -/
theorem bm25_contract_witness :
    bm25_search bm25_init "capital of france" (some 5) 10 = [] ∧
    build_index (fun _ _ => []) bm25_init [] = (bm25_init, none) ∧
    (bm25_search bm25_init "x" (some 3) 10).length ≤ 3 :=
  ⟨bm25_contract.1 bm25_init "capital of france" (some 5) 10 rfl,
   bm25_contract.2.1 (fun _ _ => []) bm25_init,
   bm25_contract.2.2.2 bm25_init "x" 3 10⟩

/-! ## C7 theorems -/

/-- C7 (counterexample): a reachable final state whose single context
document carries raw BM25 score `5` yields confidence `5`, outside
`[0,1]`: the confidence is the mean of the raw scores and is not
clamped.  The state is produced by a full run of the workflow graph in
which the vector search returns the document with score `5`, the fused
copy keeps that raw score, and the degraded reranker passes it through. -/
theorem confidence_range_counterexample :
    process_query_confidence
      (run_rag_graph
        { bm25St := bm25_init,
          vector_search := .ok [{ id := some "v1", content := "doc", score := some 5 }],
          reranker := ⟨none, 5⟩,
          llm := .ok "answer",
          today := "2026-10-12",
          BM25_TOP_K := 10 }
        (create_initial_state "hello" 1 none)).1 = 5 ∧
    ¬ ((5 : ℚ) ≤ 1) :=
  ⟨by with_unfolding_all decide, by norm_num⟩

/-- C7 (amended): the confidence reported by `process_query` equals the
arithmetic mean of the `score` fields (missing scores counted as `0.0`)
of the final context documents and equals `0.0` when there are none; it
lies in `[0,1]` exactly when the raw document scores do (BM25 raw scores
may exceed `1`, so the code does not clamp). -/
theorem confidence_contract (final : WFState) :
    (final.context_documents.getD [] = [] → process_query_confidence final = 0) ∧
    (final.context_documents.getD [] ≠ [] →
      process_query_confidence final =
        ((final.context_documents.getD []).map fun r => r.score.getD 0).sum /
          (final.context_documents.getD []).length) ∧
    ((∀ r ∈ final.context_documents.getD [], ∃ s, r.score = some s ∧ 0 ≤ s ∧ s ≤ 1) →
      0 ≤ process_query_confidence final ∧ process_query_confidence final ≤ 1) := by
  refine ⟨?_, ?_, ?_⟩
  · intro h
    unfold process_query_confidence
    rw [if_neg (by simp [h])]
  · intro h
    unfold process_query_confidence calculate_confidence_score
    rw [if_pos h, if_neg h]
  · intro hb
    unfold process_query_confidence
    by_cases h : final.context_documents.getD [] = []
    · rw [if_neg (by simp [h])]
      norm_num
    · rw [if_pos h]
      unfold calculate_confidence_score
      rw [if_neg h]
      set docs := final.context_documents.getD [] with hdocs
      have hlen : 0 < docs.length := List.length_pos.mpr h
      have hsum0 : 0 ≤ (docs.map fun r => r.score.getD 0).sum := by
        apply List.sum_nonneg
        intro x hx
        obtain ⟨r, hr, hrx⟩ := List.mem_map.mp hx
        obtain ⟨s, hs, hs0, _⟩ := hb r hr
        rw [← hrx, hs]
        simpa using hs0
      have hsum1 : (docs.map fun r => r.score.getD 0).sum ≤ docs.length := by
        calc (docs.map fun r => r.score.getD 0).sum
            ≤ (docs.map fun _ => (1 : ℚ)).sum := by
              apply List.sum_le_sum
              intro r hr
              obtain ⟨s, hs, _, hs1⟩ := hb r hr
              rw [hs]
              simpa using hs1
          _ = docs.length := by
              rw [List.map_const', List.sum_replicate, nsmul_eq_mul, mul_one]
      constructor
      · positivity
      · rw [div_le_one (by exact_mod_cast hlen)]
        exact_mod_cast hsum1

/-- C7 (witness): a state with two context documents scored `1/2` and
`1` has confidence `3/4`, inside `[0,1]`. -/
theorem confidence_contract_witness :
    process_query_confidence
      { query := "q", user_id := 1,
        context_documents := some [{ content := "a", score := some (1/2) },
          { content := "b", score := some 1 }] } =
      (((1:ℚ)/2) + 1) / 2 ∧
    (0 : ℚ) ≤ process_query_confidence
      { query := "q", user_id := 1,
        context_documents := some [{ content := "a", score := some (1/2) },
          { content := "b", score := some 1 }] } := by
  constructor
  · have h := (confidence_contract
      { query := "q", user_id := 1,
        context_documents := some [{ content := "a", score := some (1/2) },
          { content := "b", score := some 1 }] }).2.1 (by decide)
    rw [h]
    norm_num
  · exact ((confidence_contract _).2.2 (by
      intro r hr
      rcases List.mem_cons.mp hr with h | h
      · exact ⟨1/2, by rw [h], by norm_num, by norm_num⟩
      · rcases List.mem_cons.mp h with h | h
        · exact ⟨1, by rw [h], by norm_num, by norm_num⟩
        · exact absurd h (List.not_mem_nil r))).1

/-! ## C9 theorems -/

/-- C9 (counterexample): when a registered tool's `invoke` raises, the
string returned to the caller is `"Error executing tool: {str(e)}"`,
which does not contain the tool's name (`mytool` here): the executor
identifies the tool only in its log line, not in the returned string. -/
theorem execute_tool_identify_counterexample :
    execute_tool boomRegistry "mytool" none = "Error executing tool: boom" ∧
    containsSub "mytool".toList "Error executing tool: boom".toList = false :=
  ⟨rfl, by decide⟩

/-- C9 (amended): for every registry, tool name and argument map: an
unregistered name returns the error string
`"Error: Tool '{name}' not found"` without raising; and an exception
raised by the registered tool's `invoke` is caught and converted into
the error string `"Error executing tool: {message}"` — the exception's
message, not the tool's name, which appears only in the log. -/
theorem execute_tool_contract :
    (∀ (reg : String → Option Tool) (tool_name : String) (args : Option ToolArgs),
      reg tool_name = none →
      execute_tool reg tool_name args =
        "Error: Tool " ++ sqc ++ tool_name ++ sqc ++ " not found") ∧
    (∀ (reg : String → Option Tool) (tool_name : String) (args : Option ToolArgs)
      (t : Tool) (e : String),
      reg tool_name = some t → t (args.getD []) = .error e →
      execute_tool reg tool_name args = "Error executing tool: " ++ e) := by
  constructor
  · intro reg tool_name args hm
    unfold execute_tool
    rw [hm]
  · intro reg tool_name args t e hm he
    unfold execute_tool
    rw [hm]
    show (match t (args.getD []) with
      | .ok r => r
      | .error e => "Error executing tool: " ++ e) = "Error executing tool: " ++ e
    rw [he]

/-- C9 (witness): the default registry rejects the unknown name `nope`
with the not-found string, and the raising custom tool's message is
surfaced with the executor prefix. -/
theorem execute_tool_contract_witness :
    execute_tool (defaultRegistry "2026-10-12") "nope" none =
      "Error: Tool " ++ sqc ++ "nope" ++ sqc ++ " not found" ∧
    execute_tool boomRegistry "mytool" (some []) = "Error executing tool: boom" :=
  ⟨execute_tool_contract.1 (defaultRegistry "2026-10-12") "nope" none rfl,
   execute_tool_contract.2 boomRegistry "mytool" (some []) _ "boom" rfl rfl⟩

/-! ## Workflow helper lemmas (C3, C10) -/

theorem str_append_ne_empty (a b : String) (ha : a.data ≠ []) : a ++ b ≠ "" := by
  intro h
  have hd := congrArg String.data h
  rw [String.data_append] at hd
  rw [List.append_eq_nil] at hd
  exact ha hd.1

theorem run_rag_graph_error_eq (o : WFOracles) (s0 : WFState)
    (h : check_error (retrieval_node o s0) = true) :
    run_rag_graph o s0 =
      (error_node (retrieval_node o s0), [.retrieval, .error]) := by
  simp only [run_rag_graph, h]
  simp

theorem run_rag_graph_no_tool_eq (o : WFOracles) (s0 : WFState)
    (h1 : check_error (retrieval_node o s0) = false)
    (h2 : should_use_tool (tool_analysis_node (reranking_node o (retrieval_node o s0))) = false) :
    run_rag_graph o s0 =
      (generation_node o (tool_analysis_node (reranking_node o (retrieval_node o s0))),
       [.retrieval, .reranking, .tool_analysis, .generation]) := by
  simp only [run_rag_graph, h1, h2]
  simp

theorem run_rag_graph_tool_eq (o : WFOracles) (s0 : WFState)
    (h1 : check_error (retrieval_node o s0) = false)
    (h2 : should_use_tool (tool_analysis_node (reranking_node o (retrieval_node o s0))) = true) :
    run_rag_graph o s0 =
      (generation_node o
        (tool_execution_node o (tool_analysis_node (reranking_node o (retrieval_node o s0)))),
       [.retrieval, .reranking, .tool_analysis, .tool_execution, .generation]) := by
  simp only [run_rag_graph, h1, h2]
  simp

theorem retrieval_node_of_error (o : WFOracles) (s : WFState) (f : RetFail)
    (hv : o.vector_search = .error f) :
    retrieval_node o s =
      { s with error := some (match f with
          | .known m => "Retrieval error: " ++ m
          | .unexpected m => "Unexpected retrieval error: " ++ m) } := by
  have hhs : hybrid_search o s.query = .error f := by
    unfold hybrid_search
    rw [hv]
  unfold retrieval_node
  rw [hhs]
  cases f with
  | known m => rfl
  | unexpected m => rfl

theorem retrieval_node_of_ok (o : WFOracles) (s : WFState) (rs : List Result)
    (hv : o.vector_search = .ok rs) :
    retrieval_node o s =
      { s with
          hybrid_results := some (reciprocal_rank_fusion
            (bm25_search o.bm25St s.query (some o.BM25_TOP_K) o.BM25_TOP_K) rs 10),
          steps := s.steps ++ ["retrieval"],
          documents_retrieved := some (reciprocal_rank_fusion
            (bm25_search o.bm25St s.query (some o.BM25_TOP_K) o.BM25_TOP_K) rs 10).length } := by
  have hhs : hybrid_search o s.query = .ok (reciprocal_rank_fusion
      (bm25_search o.bm25St s.query (some o.BM25_TOP_K) o.BM25_TOP_K) rs 10) := by
    unfold hybrid_search
    rw [hv]
  unfold retrieval_node
  rw [hhs]

theorem str_append_ne_empty_r (a b : String) (hb : b.data ≠ []) : a ++ b ≠ "" := by
  intro h
  have hd := congrArg String.data h
  rw [String.data_append] at hd
  rw [List.append_eq_nil] at hd
  exact hb hd.2

theorem retrieval_node_query (o : WFOracles) (s : WFState) :
    (retrieval_node o s).query = s.query := by
  unfold retrieval_node
  cases hybrid_search o s.query with
  | ok rs => rfl
  | error f => cases f <;> rfl

theorem reranking_node_query (o : WFOracles) (s : WFState) :
    (reranking_node o s).query = s.query := by
  simp only [reranking_node]
  split_ifs <;> rfl

theorem should_use_tool_analysis (s : WFState)
    (h : ∀ kw ∈ tool_keywords, pyIn kw (pyLower s.query) = false) :
    should_use_tool (tool_analysis_node s) = false := by
  simp only [should_use_tool, tool_analysis_node, Option.getD_some]
  rw [List.any_eq_false]
  intro kw hkw
  simp [h kw hkw]

theorem generation_node_answer (o : WFOracles) (s : WFState)
    (hllm : ∀ a, o.llm = .ok a → a ≠ "") :
    ∃ ans, (generation_node o s).answer = some ans ∧ ans ≠ "" := by
  simp only [generation_node]
  by_cases hc : (s.context_documents.getD [] = [] ∧ truthyStr s.tool_result = false)
  · rw [if_pos hc]
    exact ⟨no_info_answer, rfl, str_append_ne_empty "I couldn" _ (by decide)⟩
  · rw [if_neg hc]
    cases hl : o.llm with
    | ok a =>
      have ha := hllm a hl
      refine ⟨if truthyStr s.tool_result = true then
        s.tool_result.getD "" ++ "\n\n" ++ a else a, rfl, ?_⟩
      by_cases ht : truthyStr s.tool_result = true
      · rw [if_pos ht]
        apply str_append_ne_empty_r
        intro hd
        exact ha (congrArg String.mk hd)
      · rw [if_neg ht]
        exact ha
    | error gf =>
      cases gf with
      | known m => exact ⟨gen_known_fallback, rfl, by decide⟩
      | unexpected m => exact ⟨gen_unexpected_fallback, rfl, by decide⟩

/-! ## C3 theorems -/

/-- C3 (counterexample): a run in which every stage succeeds but the
external LLM returns the empty string terminates (last visited node is
`generation`) with `answer = some ""` — an empty answer, contradicting
"every terminating run ends with a non-empty answer string". -/
theorem workflow_empty_answer_counterexample :
    (run_rag_graph c3Oracles (create_initial_state "hello" 7 none)).1.answer = some "" ∧
    (run_rag_graph c3Oracles (create_initial_state "hello" 7 none)).2.getLast?
      = some WFNode.generation :=
  ⟨by with_unfolding_all decide, by with_unfolding_all decide⟩

/-- C3 (amended): for every oracle configuration and query: a retrieval
failure routes the run to the error terminal, visiting exactly
`[retrieval, error]` and never the `reranking` (or any later) state; a
query containing none of the tool-trigger phrases never reaches
`tool_execution`; and every terminating run has `answer` set, non-empty
provided the generation service never returns an empty answer string
(the one hole the counterexample exhibits). -/
theorem workflow_routing (o : WFOracles) (q : String) (uid : ℤ) (tid : Option String) :
    (∀ f, o.vector_search = .error f →
      (run_rag_graph o (create_initial_state q uid tid)).2 = [.retrieval, .error] ∧
      WFNode.reranking ∉ (run_rag_graph o (create_initial_state q uid tid)).2) ∧
    ((∀ kw ∈ tool_keywords, pyIn kw (pyLower q) = false) →
      WFNode.tool_execution ∉ (run_rag_graph o (create_initial_state q uid tid)).2) ∧
    ((∀ a, o.llm = .ok a → a ≠ "") →
      ∃ ans, (run_rag_graph o (create_initial_state q uid tid)).1.answer = some ans ∧
        ans ≠ "") := by
  refine ⟨?_, ?_, ?_⟩
  · intro f hv
    have hret := retrieval_node_of_error o (create_initial_state q uid tid) f hv
    have hce : check_error (retrieval_node o (create_initial_state q uid tid)) = true := by
      rw [hret]
      cases f with
      | known m =>
        simp only [check_error, truthyStr]
        simpa using str_append_ne_empty "Retrieval error: " m (by decide)
      | unexpected m =>
        simp only [check_error, truthyStr]
        simpa using str_append_ne_empty "Unexpected retrieval error: " m (by decide)
    rw [run_rag_graph_error_eq o _ hce]
    refine ⟨rfl, ?_⟩
    show WFNode.reranking ∉ [WFNode.retrieval, WFNode.error]
    decide
  · intro hno
    by_cases hce : check_error (retrieval_node o (create_initial_state q uid tid)) = true
    · rw [run_rag_graph_error_eq o _ hce]
      show WFNode.tool_execution ∉ [WFNode.retrieval, WFNode.error]
      decide
    · have hce' : check_error (retrieval_node o (create_initial_state q uid tid)) = false := by
        cases h : check_error (retrieval_node o (create_initial_state q uid tid))
        · rfl
        · exact absurd h hce
      have hq2 : (reranking_node o (retrieval_node o (create_initial_state q uid tid))).query
          = q := by
        rw [reranking_node_query, retrieval_node_query]
        rfl
      have hst : should_use_tool (tool_analysis_node
          (reranking_node o (retrieval_node o (create_initial_state q uid tid)))) = false := by
        apply should_use_tool_analysis
        rw [hq2]
        exact hno
      rw [run_rag_graph_no_tool_eq o _ hce' hst]
      show WFNode.tool_execution ∉
        [WFNode.retrieval, WFNode.reranking, WFNode.tool_analysis, WFNode.generation]
      decide
  · intro hllm
    by_cases hce : check_error (retrieval_node o (create_initial_state q uid tid)) = true
    · rw [run_rag_graph_error_eq o _ hce]
      exact ⟨_, rfl, str_append_ne_empty "An error occurred: " _ (by decide)⟩
    · have hce' : check_error (retrieval_node o (create_initial_state q uid tid)) = false := by
        cases h : check_error (retrieval_node o (create_initial_state q uid tid))
        · rfl
        · exact absurd h hce
      by_cases hsu : should_use_tool (tool_analysis_node
          (reranking_node o (retrieval_node o (create_initial_state q uid tid)))) = true
      · rw [run_rag_graph_tool_eq o _ hce' hsu]
        exact generation_node_answer o _ hllm
      · have hsu' : should_use_tool (tool_analysis_node
            (reranking_node o (retrieval_node o (create_initial_state q uid tid)))) = false := by
          cases h : should_use_tool (tool_analysis_node
            (reranking_node o (retrieval_node o (create_initial_state q uid tid))))
          · rfl
          · exact absurd h hsu
        rw [run_rag_graph_no_tool_eq o _ hce' hsu']
        exact generation_node_answer o _ hllm

/-- C3 (witness): concrete instances of `workflow_routing`: a failing
vector search visits exactly `[retrieval, error]`, and a triggerless
query with a well-behaved LLM produces a non-empty answer. -/
theorem workflow_routing_witness :
    ((run_rag_graph { c3Oracles with vector_search := .error (.known "chroma down") }
        (create_initial_state "hello" 7 none)).2 = [.retrieval, .error] ∧
      WFNode.reranking ∉ (run_rag_graph
        { c3Oracles with vector_search := .error (.known "chroma down") }
        (create_initial_state "hello" 7 none)).2) ∧
    (∃ ans, (run_rag_graph { c3Oracles with llm := .ok "Paris." }
        (create_initial_state "hello" 7 none)).1.answer = some ans ∧ ans ≠ "") :=
  ⟨(workflow_routing { c3Oracles with vector_search := .error (.known "chroma down") }
      "hello" 7 none).1 (.known "chroma down") rfl,
   (workflow_routing { c3Oracles with llm := .ok "Paris." } "hello" 7 none).2.2
     (fun a ha => by
        injection ha with ha
        rw [← ha]
        decide)⟩

/-! ## C10 theorems -/

/-- C10: for every query routed to the arithmetic branch of
`tool_execution_node` (lower-cased text containing `calculate` or
`compute` but neither `date` nor `today`): with at least two integer
literals in the query, the evaluated expression is always the addition
of the first two integers found (`numbers[0] + numbers[1]`), whatever
operation the query's words ask for; with fewer than two integer
literals no `tool_result` is stored at all, even though the node runs. -/
theorem tool_execution_arithmetic (o : WFOracles) (s : WFState)
    (hcalc : pyIn "calculate" (pyLower s.query) = true ∨
      pyIn "compute" (pyLower s.query) = true)
    (hdate : pyIn "date" (pyLower s.query) = false)
    (htoday : pyIn "today" (pyLower s.query) = false) :
    (∀ n0 n1 rest, digitRuns (pyLower s.query).toList = n0 :: n1 :: rest →
      (tool_execution_node o s).tool_result =
        some ("Calculation result: " ++ calculate (n0 ++ "+" ++ n1))) ∧
    ((digitRuns (pyLower s.query).toList).length < 2 →
      (tool_execution_node o s).tool_result = s.tool_result) := by
  have hb1 : (pyIn "date" (pyLower s.query) || pyIn "today" (pyLower s.query)) = false := by
    rw [hdate, htoday]
    rfl
  have hb2 : (pyIn "calculate" (pyLower s.query) ||
      pyIn "compute" (pyLower s.query)) = true := by
    rcases hcalc with h | h <;> simp [h]
  have hexec : ∀ e : String, execute_tool (defaultRegistry o.today) "calculate"
      (some [("expression", e)]) = calculate e := fun e => rfl
  constructor
  · intro n0 n1 rest hd
    simp only [tool_execution_node, hb1, hb2, hd, hexec]
    simp
  · intro hlen
    cases hd : digitRuns (pyLower s.query).toList with
    | nil =>
      have hd' : digitRuns (pyLower s.query).data = [] := hd
      simp [tool_execution_node, hb1, hb2, hd']
    | cons n0 tail =>
      cases tail with
      | nil =>
        have hd' : digitRuns (pyLower s.query).data = [n0] := hd
        simp [tool_execution_node, hb1, hb2, hd']
      | cons n1 rest =>
        rw [hd] at hlen
        simp at hlen
        omega

/-- C10 (witness): the query `"Calculate 3 times 4 please"` asks for a
multiplication but the stored result is the addition `3+4 = 7`. -/
theorem tool_execution_arithmetic_witness :
    (tool_execution_node c3Oracles
      (create_initial_state "Calculate 3 times 4 please" 1 none)).tool_result =
      some ("Calculation result: " ++ calculate ("3" ++ "+" ++ "4")) ∧
    calculate ("3" ++ "+" ++ "4") = "7" := by
  constructor
  · exact (tool_execution_arithmetic c3Oracles
      (create_initial_state "Calculate 3 times 4 please" 1 none)
      (Or.inl (by decide)) (by decide) (by decide)).1 "3" "4" [] (by decide)
  · rfl
